import Mathlib

/-!
Shallow embedding of the webhook-ingestion and state-reconciliation core of the
LiveStreamOrchestrator repository, together with proofs of its specified
properties.

Sources embedded:
- `server/src/services/database.service.ts` (Prisma-backed durable store ops)
- `server/src/services/state.service.ts` (ephemeral Redis state + SSE fan-out)
- `server/src/services/livestream.service.ts` (orchestrator, `handleWebhookEvent`,
  `sanitizeRoomName`)
- `server/src/workers/webhook.worker.ts` (`processWebhook`)
- `server/src/jobs/livestream-reconciliation.job.ts` (`runReconciliation`)
- `server/src/routes/webhook.routes.ts` (the `/livekit` intake route)

Conventions: machine timestamps (`Date.now()`, `new Date()`) are `Nat`
milliseconds threaded explicitly; async I/O is modelled as explicit state
passing over a `World` record; Prisma calls that can only fail with a
distinguishable error code are `Except` values; everything else is total.
-/

namespace Orchestrator

/-- Lifecycle status of a livestream row (Prisma enum `LivestreamStatus`). -/
inductive LivestreamStatus
  | SCHEDULED
  | LIVE
  | ENDED
  | ERROR
deriving DecidableEq, Repr

/-- Membership status of a participant row (Prisma enum `ParticipantStatus`). -/
inductive ParticipantStatus
  | JOINED
  | LEFT
deriving DecidableEq, Repr

/-- Role of a participant row (Prisma enum `ParticipantRole`). -/
inductive ParticipantRole
  | HOST
  | VIEWER
deriving DecidableEq, Repr

/-- A row of the `livestreams` table (fields relevant to the verified core). -/
structure Livestream where
  id : String
  roomName : String
  status : LivestreamStatus
  startedAt : Option Nat
  endedAt : Option Nat
deriving DecidableEq, Repr

/-- A row of the `participants` table. `livekitParticipantSid` is the
external-session-scoped correlation token (unique index in the schema,
nullable until LiveKit confirms the join). -/
structure Participant where
  id : String
  livestreamId : String
  userId : String
  role : ParticipantRole
  status : ParticipantStatus
  livekitParticipantSid : Option String
  livekitRoomSid : Option String
  joinedAt : Nat
  leftAt : Option Nat
deriving DecidableEq, Repr

/-- A row of the `webhook_events` dedup-ledger table (primary key `id`). -/
structure WebhookRecord where
  id : String
  event : String
deriving DecidableEq, Repr

/-- The durable relational store: the three tables the core touches. -/
structure DurableDB where
  livestreams : List Livestream
  participants : List Participant
  webhookEvents : List WebhookRecord
deriving DecidableEq, Repr

/-- `databaseService.getLivestreamByRoomName`: `findUnique({ where: { roomName } })`. -/
def getLivestreamByRoomName (db : DurableDB) (roomName : String) : Option Livestream :=
  db.livestreams.find? (fun ls => ls.roomName == roomName)

/-- `databaseService.listParticipants({ livestreamId, status: 'JOINED' })`.
The source additionally orders by `joinedAt desc`; none of the verified
properties depend on the order, so the filter order is kept. -/
def listJoinedParticipants (db : DurableDB) (livestreamId : String) : List Participant :=
  db.participants.filter
    (fun p => p.livestreamId == livestreamId && p.status == ParticipantStatus.JOINED)

/-- The row update `{ status: 'LEFT', leftAt: new Date() }`. -/
def markLeft (p : Participant) (now : Nat) : Participant :=
  { p with status := ParticipantStatus.LEFT, leftAt := some now }

/-- `databaseService.markParticipantAsLeftBySid`: inside a transaction, find the
participant by its unique LiveKit SID; if absent or already `LEFT`, return
`false` without touching anything; otherwise update that row (by primary key)
to `LEFT` with a leave timestamp and return `true`. -/
def markParticipantAsLeftBySid (db : DurableDB) (sid : String) (now : Nat) :
    Bool × DurableDB :=
  match db.participants.find? (fun p => p.livekitParticipantSid == some sid) with
  | none => (false, db)
  | some p =>
    if p.status = ParticipantStatus.LEFT then (false, db)
    else
      (true,
        { db with
          participants :=
            db.participants.map (fun q => if q.id == p.id then markLeft q now else q) })

/-- The row update `{ livekitParticipantSid, livekitRoomSid }`. -/
def setSids (p : Participant) (psid rsid : String) : Participant :=
  { p with livekitParticipantSid := some psid, livekitRoomSid := some rsid }

/-- `findFirst({ where: { userId, livestreamId, status: 'JOINED',
livekitParticipantSid: null }, orderBy: { joinedAt: 'desc' } })`: the most
recent matching row (first in stable descending order, i.e. the earliest listed
row among those maximising `joinedAt`). -/
def findMostRecentPending (db : DurableDB) (userId livestreamId : String) :
    Option Participant :=
  (db.participants.filter
      (fun p => p.userId == userId && p.livestreamId == livestreamId &&
        p.status == ParticipantStatus.JOINED && p.livekitParticipantSid.isNone)).foldl
    (fun acc p =>
      match acc with
      | none => some p
      | some q => if p.joinedAt > q.joinedAt then some p else some q)
    none

/-- `databaseService.updateParticipantWithLiveKitSids`: attach the LiveKit SIDs
to the most recent pending `JOINED` row, returning `none` when no such row. -/
def updateParticipantWithLiveKitSids (db : DurableDB)
    (userId livestreamId psid rsid : String) : Option Participant × DurableDB :=
  match findMostRecentPending db userId livestreamId with
  | none => (none, db)
  | some p =>
    (some (setSids p psid rsid),
      { db with
        participants :=
          db.participants.map (fun q => if q.id == p.id then setSids q psid rsid else q) })

/-- The instance of `databaseService.updateLivestream` used by the
reconciliation sweeper: `{ status: 'ENDED', endedAt: new Date() }`. -/
def updateLivestreamEnded (db : DurableDB) (id : String) (now : Nat) : DurableDB :=
  { db with
    livestreams :=
      db.livestreams.map (fun ls =>
        if ls.id == id then { ls with status := LivestreamStatus.ENDED, endedAt := some now }
        else ls) }

/-- `databaseService.checkWebhookProcessed`: `findUnique({ where: { id } }) !== null`. -/
def checkWebhookProcessed (db : DurableDB) (webhookId : String) : Bool :=
  (db.webhookEvents.find? (fun r => r.id == webhookId)).isSome

/-- Distinguishable Prisma error codes as seen by the embedded services:
`uniqueViolation` is P2002, `databaseError` is the service-level wrapper. -/
inductive DbError
  | uniqueViolation
  | databaseError
deriving DecidableEq, Repr

/-- `prisma.webhookEvent.create`: inserts the dedup-ledger row, raising the
unique-violation error code (P2002) when the primary key already exists. -/
def webhookEventCreate (db : DurableDB) (webhookId event : String) :
    Except DbError DurableDB :=
  if checkWebhookProcessed db webhookId then Except.error DbError.uniqueViolation
  else Except.ok { db with webhookEvents := db.webhookEvents ++ [{ id := webhookId, event := event }] }

/-- `databaseService.recordWebhookProcessed`: insert the ledger row; a P2002
duplicate is caught and treated as a benign race (normal return); any other
failure is rewrapped as a `DatabaseError`. -/
def recordWebhookProcessed (db : DurableDB) (webhookId event : String) :
    Except DbError DurableDB :=
  match webhookEventCreate db webhookId event with
  | Except.ok db2 => Except.ok db2
  | Except.error DbError.uniqueViolation => Except.ok db
  | Except.error DbError.databaseError => Except.error DbError.databaseError

/-! ### Ephemeral state store and fan-out (`state.service.ts`) -/

/-- Ephemeral stream status (`'LIVE' | 'ENDED'` in `StreamState`). -/
inductive StreamStatus
  | LIVE
  | ENDED
deriving DecidableEq, Repr

/-- Host display info carried in the ephemeral state. -/
structure HostInfo where
  userId : String
  displayName : String
deriving DecidableEq, Repr

/-- The `StreamState` record stored in Redis under `stream:state:{id}`. -/
structure StreamState where
  streamId : String
  status : StreamStatus
  participants : List String
  startedAt : Nat
  viewerCount : Nat
  totalViewers : Nat
  peakViewerCount : Nat
  hostInfo : HostInfo
deriving DecidableEq, Repr

/-- Per-session viewer-count throttle entry (`ViewerCountThrottle`). -/
structure ViewerCountThrottle where
  lastBroadcastCount : Nat
  lastBroadcastTime : Nat
deriving DecidableEq, Repr

/-- Event labels published on the per-session channel (`StateEventType`).
The source's `state` label is rendered `stateSnapshot` here. -/
inductive StateEventType
  | stateSnapshot
  | room_started
  | viewer_count_update
  | room_ended
deriving DecidableEq, Repr

/-- Key-value lookup in a string-keyed association list (Redis `get` /
in-process `Map.get`). -/
def alGet {α : Type} (l : List (String × α)) (k : String) : Option α :=
  (l.find? (fun e => e.1 == k)).map (fun e => e.2)

/-- Key-value upsert in a string-keyed association list (Redis `setex` /
in-process `Map.set`). -/
def alSet {α : Type} (l : List (String × α)) (k : String) (v : α) :
    List (String × α) :=
  if (l.find? (fun e => e.1 == k)).isSome then
    l.map (fun e => if e.1 == k then (k, v) else e)
  else l ++ [(k, v)]

/-- The whole system state: the durable store, the Redis stream states, the
process-local throttle map, the log of events published on the pub/sub
channels (pairs of session id and event label), and the per-session count of
open SSE subscriber connections. -/
structure World where
  db : DurableDB
  states : List (String × StreamState)
  throttles : List (String × ViewerCountThrottle)
  events : List (String × StateEventType)
  sse : List (String × Nat)
deriving DecidableEq, Repr

/-- `stateService.getState`. -/
def getState (w : World) (id : String) : Option StreamState :=
  alGet w.states id

/-- `stateService.setState` (the 24h TTL refresh is not observable here). -/
def setState (w : World) (id : String) (s : StreamState) : World :=
  { w with states := alSet w.states id s }

/-- `stateService.broadcastStateEvent`: publish one event on the session's
channel; modelled as appending to the event log. -/
def broadcastStateEvent (w : World) (id : String) (ty : StateEventType) : World :=
  { w with events := w.events ++ [(id, ty)] }

/-- `stateService.closeConnectionsForStream`: force-close and drop every SSE
connection registered for the session (and release the channel subscription). -/
def closeConnectionsForStream (w : World) (id : String) : World :=
  { w with sse := w.sse.filter (fun e => !(e.1 == id)) }

/-- The fresh `StreamState` built by `stateService.initializeState`. -/
def initialStreamState (id : String) (host : HostInfo) (startedAt : Nat) :
    StreamState :=
  { streamId := id
    status := StreamStatus.LIVE
    participants := []
    startedAt := startedAt
    viewerCount := 0
    totalViewers := 0
    peakViewerCount := 0
    hostInfo := host }

/-- `stateService.initializeState` (rendered `initState`): store the fresh
state under the session's key. -/
def initState (w : World) (id : String) (host : HostInfo) (startedAt : Nat) :
    World :=
  setState w id (initialStreamState id host startedAt)

/-- The throttle decision of `checkAndBroadcastViewerCount` when a previous
broadcast exists: at least 5000 ms elapsed AND (relative change of at least 10%
or absolute change of at least 5), where the relative change against a zero
baseline is defined to be 1. -/
def shouldBroadcastViewer (t : ViewerCountThrottle) (now count : Nat) : Bool :=
  let timeSinceLastBroadcast := now - t.lastBroadcastTime
  let countDelta := ((count : Int) - (t.lastBroadcastCount : Int)).natAbs
  let percentChange : ℚ :=
    if t.lastBroadcastCount > 0 then (countDelta : ℚ) / (t.lastBroadcastCount : ℚ) else 1
  decide (5000 ≤ timeSinceLastBroadcast) &&
    (decide ((1 : ℚ) / 10 ≤ percentChange) || decide (5 ≤ countDelta))

/-- `stateService.checkAndBroadcastViewerCount`: the very first update for a
session always broadcasts; later updates broadcast only when
`shouldBroadcastViewer` holds; each broadcast refreshes the throttle entry. -/
def checkAndBroadcastViewerCount (w : World) (id : String) (st : StreamState)
    (now : Nat) : World :=
  let currentCount := st.viewerCount
  match alGet w.throttles id with
  | none =>
    broadcastStateEvent
      { w with
        throttles :=
          alSet w.throttles id
            { lastBroadcastCount := currentCount, lastBroadcastTime := now } }
      id StateEventType.viewer_count_update
  | some t =>
    if shouldBroadcastViewer t now currentCount then
      broadcastStateEvent
        { w with
          throttles :=
            alSet w.throttles id
              { lastBroadcastCount := currentCount, lastBroadcastTime := now } }
        id StateEventType.viewer_count_update
    else w

/-- The pure mutation of `stateService.handleParticipantJoined` on the stream
state, applied when the user is not yet in the list. -/
def applyJoin (st : StreamState) (userId : String) : StreamState :=
  let parts := st.participants ++ [userId]
  { st with
    participants := parts
    viewerCount := parts.length
    totalViewers := st.totalViewers + 1
    peakViewerCount :=
      if parts.length > st.peakViewerCount then parts.length else st.peakViewerCount }

/-- `stateService.handleParticipantJoined`: no-op when the state is missing or
the user is already listed; otherwise add the user, persist, and run the
viewer-count throttle check. -/
def handleParticipantJoined (w : World) (id userId : String) (now : Nat) : World :=
  match getState w id with
  | none => w
  | some st =>
    if userId ∈ st.participants then w
    else
      let st2 := applyJoin st userId
      checkAndBroadcastViewerCount (setState w id st2) id st2 now

/-- The pure mutation of `stateService.handleParticipantLeft` on the stream
state: remove the first occurrence (`indexOf` + `splice`). -/
def applyLeave (st : StreamState) (userId : String) : StreamState :=
  let parts := st.participants.erase userId
  { st with participants := parts, viewerCount := parts.length }

/-- `stateService.handleParticipantLeft`: no-op when the state is missing or
the user is not listed; otherwise remove the user, persist, and run the
viewer-count throttle check. -/
def handleParticipantLeft (w : World) (id userId : String) (now : Nat) : World :=
  match getState w id with
  | none => w
  | some st =>
    if userId ∈ st.participants then
      let st2 := applyLeave st userId
      checkAndBroadcastViewerCount (setState w id st2) id st2 now
    else w

/-- `stateService.handleRoomEnded`: when the state exists, mark it `ENDED`,
persist, broadcast `room_ended`, then close all SSE connections of the
session; when the state is missing, warn and do nothing. -/
def handleRoomEnded (w : World) (id : String) : World :=
  match getState w id with
  | none => w
  | some st =>
    let st2 := { st with status := StreamStatus.ENDED }
    closeConnectionsForStream
      (broadcastStateEvent (setState w id st2) id StateEventType.room_ended) id

/-! ### Session orchestrator (`livestream.service.ts`) -/

/-- The `room` field of a LiveKit webhook event. -/
structure RoomInfo where
  sid : String
  name : String
deriving DecidableEq, Repr

/-- The `participant` field of a LiveKit webhook event. -/
structure ParticipantInfo where
  sid : String
  identity : String
  name : String
deriving DecidableEq, Repr

/-- A (signature-verified) LiveKit webhook event (`WebhookEvent`). -/
structure WebhookEvent where
  id : String
  event : String
  room : Option RoomInfo
  participant : Option ParticipantInfo
  createdAt : Nat
deriving DecidableEq, Repr

/-- The `room_finished` branch of `handleWebhookEvent`: look the session up by
room name; when found, walk its `JOINED` participants and flip each one that
carries a LiveKit SID via `markParticipantAsLeftBySid` (participants without a
SID are only warned about), then run `stateService.handleRoomEnded`. The
durable livestream row is not updated on this path. -/
def handleRoomFinished (w : World) (r : RoomInfo) (now : Nat) : World :=
  match getLivestreamByRoomName w.db r.name with
  | none => w
  | some ls =>
    let activeParticipants := listJoinedParticipants w.db ls.id
    let w2 := activeParticipants.foldl
      (fun acc p =>
        match p.livekitParticipantSid with
        | some sid => { acc with db := (markParticipantAsLeftBySid acc.db sid now).2 }
        | none => acc)
      w
    handleRoomEnded w2 ls.id

/-- `livestreamService.handleWebhookEvent`: dispatch on the event label.
Unrecognized labels are logged and ignored. -/
def handleWebhookEvent (w : World) (ev : WebhookEvent) (now : Nat) : World :=
  if ev.event == "participant_joined" then
    match ev.participant, ev.room with
    | some pInfo, some r =>
      match getLivestreamByRoomName w.db r.name with
      | none => w
      | some ls =>
        let upd := updateParticipantWithLiveKitSids w.db pInfo.identity ls.id pInfo.sid r.sid
        let w2 := { w with db := upd.2 }
        match upd.1 with
        | some _ => handleParticipantJoined w2 ls.id pInfo.identity now
        | none => w2
    | _, _ => w
  else if ev.event == "participant_left" then
    match ev.participant, ev.room with
    | some pInfo, some r =>
      let upd := markParticipantAsLeftBySid w.db pInfo.sid now
      let w2 := { w with db := upd.2 }
      if upd.1 then
        match getLivestreamByRoomName w2.db r.name with
        | none => w2
        | some ls => handleParticipantLeft w2 ls.id pInfo.identity now
      else w2
    | _, _ => w
  else if ev.event == "room_started" then
    match ev.room with
    | some r =>
      match getLivestreamByRoomName w.db r.name with
      | none => w
      | some ls =>
        match getState w ls.id with
        | none => w
        | some _ => broadcastStateEvent w ls.id StateEventType.room_started
    | none => w
  else if ev.event == "room_finished" then
    match ev.room with
    | some r => handleRoomFinished w r now
    | none => w
  else w

/-! ### Notification processor (`webhook.worker.ts`) -/

/-- A dequeued job (`WebhookJob`). -/
structure WebhookJob where
  webhookId : String
  event : String
  payload : WebhookEvent
deriving DecidableEq, Repr

/-- `processWebhook`: dedup check against the ledger first (present means a
silent success return); otherwise record the ledger row *before* invoking the
orchestrator; any error propagates to the queue's retry mechanism. -/
def processWebhook (w : World) (job : WebhookJob) (now : Nat) :
    Except DbError World :=
  if checkWebhookProcessed w.db job.webhookId then Except.ok w
  else
    match recordWebhookProcessed w.db job.webhookId job.event with
    | Except.error e => Except.error e
    | Except.ok db2 => Except.ok (handleWebhookEvent { w with db := db2 } job.payload now)

/-! ### Reconciliation sweeper (`livestream-reconciliation.job.ts`) -/

/-- The summary returned by one reconciliation run (`ReconciliationStats`). -/
structure ReconciliationStats where
  totalLiveLivestreams : Nat
  staleLivestreams : Nat
  participantsUpdated : Nat
  errors : Nat
deriving DecidableEq, Repr

/-- The body of the per-stale-livestream `try` block of `runReconciliation`:
flip the SID-carrying `JOINED` participants (counting actual updates), set the
livestream to `ENDED` with an end timestamp, and run
`stateService.handleRoomEnded`. -/
def reconcileSession (w : World) (ls : Livestream) (now : Nat) : World × Nat :=
  let activeParticipants := listJoinedParticipants w.db ls.id
  let step := activeParticipants.foldl
    (fun (acc : World × Nat) p =>
      match p.livekitParticipantSid with
      | some sid =>
        let r := markParticipantAsLeftBySid acc.1.db sid now
        ({ acc.1 with db := r.2 }, acc.2 + (if r.1 then 1 else 0))
      | none => acc)
    (w, 0)
  let w2 := { step.1 with db := updateLivestreamEnded step.1.db ls.id now }
  (handleRoomEnded w2 ls.id, step.2)

/-- `runReconciliation`: fetch the `LIVE` livestreams, compute the stale ones
(room name absent from LiveKit's live room list), reconcile each inside a
per-session try/catch that counts failures without aborting the sweep, and
return the summary. A session failure is modelled by the oracle `fails`
holding for its id, standing for the first durable-store call of its `try`
block throwing (before any of its effects apply). -/
def runReconciliation (w : World) (liveKitRoomNames : List String)
    (fails : String → Bool) (now : Nat) : World × ReconciliationStats :=
  let liveLivestreams := w.db.livestreams.filter
    (fun ls => ls.status == LivestreamStatus.LIVE)
  let staleLivestreams := liveLivestreams.filter
    (fun ls => !(liveKitRoomNames.contains ls.roomName))
  let step := staleLivestreams.foldl
    (fun (acc : World × Nat × Nat) ls =>
      if fails ls.id then (acc.1, acc.2.1, acc.2.2 + 1)
      else
        let r := reconcileSession acc.1 ls now
        (r.1, acc.2.1 + r.2, acc.2.2))
    (w, 0, 0)
  (step.1,
    { totalLiveLivestreams := liveLivestreams.length
      staleLivestreams := staleLivestreams.length
      participantsUpdated := step.2.1
      errors := step.2.2 })

/-! ### Webhook intake route (`webhook.routes.ts`, POST `/livekit`) -/

/-- The HTTP status produced by the `/livekit` intake handler, as a function of
whether the raw body arrived as a Buffer, the result of signature verification
(`verifyWebhook` returning a parsed event or `null`), and whether enqueueing
the job throws. The whole handler body sits in a try/catch whose catch arm
still responds 200 so LiveKit never retries. -/
def webhookLivekitRoute (bodyIsBuffer : Bool) (verifyResult : Option WebhookEvent)
    (enqueueThrows : Bool) : Nat :=
  let attempt : Except Unit Nat :=
    if !bodyIsBuffer then Except.ok 400
    else
      match verifyResult with
      | none => Except.ok 401
      | some _ => if enqueueThrows then Except.error () else Except.ok 200
  match attempt with
  | Except.ok status => status
  | Except.error _ => 200

/-! ### Room-name sanitizer (`livestreamService.sanitizeRoomName`) -/

/-- Whitespace as removed by JavaScript `String.prototype.trim` (the ASCII
part; the exotic Unicode space code points never survive the later replacement
step and are irrelevant to the proved properties). -/
def isJsWhitespace (c : Char) : Bool :=
  c == ' ' || c == '\t' || c == '\n' || c == '\r' || c == '\x0b' || c == '\x0c'

/-- `.trim()` on a character list: drop whitespace from both ends. -/
def jsTrim (l : List Char) : List Char :=
  ((l.dropWhile isJsWhitespace).reverse.dropWhile isJsWhitespace).reverse

/-- Membership in the regex class `[a-z0-9-_]`. -/
def isAllowedRoomChar (c : Char) : Bool :=
  ('a' ≤ c && c ≤ 'z') || ('0' ≤ c && c ≤ '9') || c == '-' || c == '_'

/-- `.replace(/[^a-z0-9-_]/g, '-')`. -/
def replaceDisallowed (l : List Char) : List Char :=
  l.map (fun c => if isAllowedRoomChar c then c else '-')

/-- The regex replacement of every run of hyphens by one hyphen (the second
`.replace` of the source). -/
def collapseHyphens : List Char → List Char
  | [] => []
  | [c] => [c]
  | a :: b :: rest =>
    if a = '-' ∧ b = '-' then collapseHyphens (b :: rest)
    else a :: collapseHyphens (b :: rest)

/-- `.replace(/^-|-$/g, '')`: remove one leading and one trailing hyphen. -/
def stripEdgeHyphens (l : List Char) : List Char :=
  let l1 := if l.head? = some '-' then l.tail else l
  if l1.getLast? = some '-' then l1.dropLast else l1

/-- `livestreamService.sanitizeRoomName`: trim, lowercase, replace disallowed
characters by `-`, collapse hyphen runs, strip edge hyphens. -/
def sanitizeRoomName (s : String) : String :=
  String.mk
    (stripEdgeHyphens
      (collapseHyphens (replaceDisallowed ((jsTrim s.data).map Char.toLower))))

/-! ### Derived notions used by the statements -/

/-- Functional uniqueness of the LiveKit participant SIDs in a row list: the
shape of the schema's unique index on `livekitParticipantSid` (null values
excepted, as in Postgres). -/
def SidsUnique (l : List Participant) : Prop :=
  ∀ p ∈ l, ∀ q ∈ l,
    p.livekitParticipantSid.isSome = true →
    p.livekitParticipantSid = q.livekitParticipantSid → p = q

instance (l : List Participant) : Decidable (SidsUnique l) :=
  inferInstanceAs
    (Decidable
      (∀ p ∈ l, ∀ q ∈ l,
        p.livekitParticipantSid.isSome = true →
        p.livekitParticipantSid = q.livekitParticipantSid → p = q))

/-- Row-level effect of the `room_finished` participant sweep on one
participant row: flipped exactly when it belongs to the session, is `JOINED`,
and carries a SID. -/
def sessionFlip (lsId : String) (now : Nat) (p : Participant) : Participant :=
  if p.livestreamId = lsId ∧ p.status = ParticipantStatus.JOINED ∧
      p.livekitParticipantSid.isSome = true then
    markLeft p now
  else p

/-- Row-level effect of one reconciliation run on one participant row: flipped
exactly when it is a SID-carrying `JOINED` row of a stale, non-failing
session. -/
def staleFlip (stale : List Livestream) (fails : String → Bool) (now : Nat)
    (p : Participant) : Participant :=
  if (∃ ls ∈ stale, ls.id = p.livestreamId ∧ fails ls.id = false) ∧
      p.status = ParticipantStatus.JOINED ∧ p.livekitParticipantSid.isSome = true then
    markLeft p now
  else p

/-- Row-level effect of one reconciliation run on one livestream row: ended
exactly when it is `LIVE`, its room is absent from LiveKit's live list, and
its reconciliation did not fail. -/
def staleEnd (liveKitRoomNames : List String) (fails : String → Bool) (now : Nat)
    (ls : Livestream) : Livestream :=
  if ls.status = LivestreamStatus.LIVE ∧ liveKitRoomNames.contains ls.roomName = false ∧
      fails ls.id = false then
    { ls with status := LivestreamStatus.ENDED, endedAt := some now }
  else ls

/-- A stream state carrying a given viewer count (only the count is read by
the throttle decision). -/
def mkViewerState (id : String) (count : Nat) : StreamState :=
  { initialStreamState id { userId := "", displayName := "" } 0 with viewerCount := count }

/-- A burst of viewer-count updates: each pair is (arrival time, new count),
fed through `checkAndBroadcastViewerCount` in order. -/
def viewerUpdatesRun (w : World) (id : String) (updates : List (Nat × Nat)) : World :=
  updates.foldl (fun acc u => checkAndBroadcastViewerCount acc id (mkViewerState id u.2) u.1) w

/-! ### Concrete sample data for witnesses and counterexamples -/

/-- A `JOINED` participant whose LiveKit SID has been attached. -/
def sampleParticipant : Participant :=
  { id := "p1", livestreamId := "ls1", userId := "u1", role := ParticipantRole.VIEWER,
    status := ParticipantStatus.JOINED, livekitParticipantSid := some "PA1",
    livekitRoomSid := some "RM1", joinedAt := 1, leftAt := none }

/-- A `JOINED` participant whose LiveKit SID was never attached. -/
def sampleParticipantNoSid : Participant :=
  { id := "p2", livestreamId := "ls1", userId := "u2", role := ParticipantRole.VIEWER,
    status := ParticipantStatus.JOINED, livekitParticipantSid := none,
    livekitRoomSid := none, joinedAt := 2, leftAt := none }

/-- A `LIVE` livestream row. -/
def sampleLivestream : Livestream :=
  { id := "ls1", roomName := "room-a", status := LivestreamStatus.LIVE,
    startedAt := some 0, endedAt := none }

/-- A world with one live session, one SID-carrying and one SID-less `JOINED`
participant, an ephemeral state, and two open SSE connections. -/
def sampleWorld : World :=
  { db :=
      { livestreams := [sampleLivestream]
        participants := [sampleParticipant, sampleParticipantNoSid]
        webhookEvents := [] }
    states := [("ls1", initialStreamState "ls1" { userId := "u1", displayName := "host" } 0)]
    throttles := []
    events := []
    sse := [("ls1", 2)] }

/-- A `room_finished` event for `sampleWorld`'s room. -/
def sampleRoomFinishedEvent : WebhookEvent :=
  { id := "wh1", event := "room_finished", room := some { sid := "RM1", name := "room-a" },
    participant := none, createdAt := 0 }

/-- Proof-side restatement of the participant sweep shared by the
`room_finished` branch and the reconciliation job: walk the listed
participants, marking each SID-carrying one as left, and count the rows
actually updated. -/
def markSweep : DurableDB → List Participant → Nat → DurableDB × Nat
  | db, [], _ => (db, 0)
  | db, p :: ps, now =>
    match p.livekitParticipantSid with
    | some sid =>
      let r := markParticipantAsLeftBySid db sid now
      let rest := markSweep r.2 ps now
      (rest.1, (if r.1 then 1 else 0) + rest.2)
    | none => markSweep db ps now

/-- Ids of the stale sessions actually processed by a sweep (the non-failing
ones), in processing order. -/
def doneIds (rest : List Livestream) (fails : String → Bool) : List String :=
  (rest.filter fun ls => !(fails ls.id)).map fun ls => ls.id

/-- Row-level livestream effect of processing the sessions in `ids`. -/
def endFor (ids : List String) (now : Nat) (ls : Livestream) : Livestream :=
  if ls.id ∈ ids then { ls with status := LivestreamStatus.ENDED, endedAt := some now }
  else ls

/-- Row-level participant effect of processing the sessions in `ids`. -/
def flipFor (ids : List String) (now : Nat) (p : Participant) : Participant :=
  if p.livestreamId ∈ ids ∧ p.status = ParticipantStatus.JOINED ∧
      p.livekitParticipantSid.isSome = true then
    markLeft p now
  else p

/-- Proof-side restatement of the per-stale-session loop of
`runReconciliation`. -/
def reconLoop (fails : String → Bool) (now : Nat) (rest : List Livestream)
    (acc : World × Nat × Nat) : World × Nat × Nat :=
  rest.foldl
    (fun acc ls =>
      if fails ls.id then (acc.1, acc.2.1, acc.2.2 + 1)
      else
        let r := reconcileSession acc.1 ls now
        (r.1, acc.2.1 + r.2, acc.2.2))
    acc

/-- The ephemeral-state invariant of C10: the viewer count mirrors the
participant list, the list has no duplicate user ids, and the peak is an
upper bound of the current count. -/
def StreamInv (s : StreamState) : Prop :=
  s.viewerCount = s.participants.length ∧ s.participants.Nodup ∧
    s.viewerCount ≤ s.peakViewerCount

instance (s : StreamState) : Decidable (StreamInv s) :=
  inferInstanceAs
    (Decidable
      (s.viewerCount = s.participants.length ∧ s.participants.Nodup ∧
        s.viewerCount ≤ s.peakViewerCount))

/-- Every stream state stored in the ephemeral store satisfies `StreamInv`. -/
def StatesInv (w : World) : Prop :=
  ∀ e ∈ w.states, StreamInv e.2

instance (w : World) : Decidable (StatesInv w) :=
  inferInstanceAs (Decidable (∀ e ∈ w.states, StreamInv e.2))

/-! ## Generic list and association-list lemmas -/

theorem find?_eq_some_of_unique {α : Type} (p : α → Bool) (l : List α) (a : α)
    (ha : a ∈ l) (hpa : p a = true) (huniq : ∀ b ∈ l, p b = true → b = a) :
    l.find? p = some a := by
  induction l with
  | nil => exact absurd ha (List.not_mem_nil a)
  | cons x xs ih =>
    by_cases hx : p x = true
    · rw [List.find?_cons_of_pos _ hx, huniq x (List.mem_cons_self x xs) hx]
    · rw [List.find?_cons_of_neg _ hx]
      refine ih ?_ fun b hb hpb => huniq b (List.mem_cons_of_mem _ hb) hpb
      rcases List.mem_cons.mp ha with h | h
      · exact absurd (h ▸ hpa) hx
      · exact h

theorem alGet_nil {α : Type} (k : String) : alGet ([] : List (String × α)) k = none := rfl

theorem alGet_cons {α : Type} (e : String × α) (es : List (String × α)) (k : String) :
    alGet (e :: es) k = if e.1 = k then some e.2 else alGet es k := by
  by_cases he : e.1 = k
  · rw [if_pos he]
    unfold alGet
    rw [List.find?_cons_of_pos _ (by simp [he])]
    rfl
  · rw [if_neg he]
    unfold alGet
    rw [List.find?_cons_of_neg _ (by simp [he])]

theorem alGet_map_keyfix {α : Type} (l : List (String × α)) (k k' : String) (v : α)
    (hk : k' ≠ k) :
    alGet (l.map fun e => if e.1 == k then (k, v) else e) k' = alGet l k' := by
  induction l with
  | nil => rfl
  | cons e es ih =>
    rw [List.map_cons]
    by_cases he : e.1 = k
    · have h1 : (if (e.1 == k) = true then (k, v) else e) = (k, v) := by simp [he]
      have h2 : ¬ e.1 = k' := fun h => hk (h.symm.trans he)
      rw [h1, alGet_cons, alGet_cons, if_neg (fun h : k = k' => hk h.symm), if_neg h2]
      exact ih
    · have h1 : (if (e.1 == k) = true then (k, v) else e) = e := by simp [he]
      rw [h1, alGet_cons, alGet_cons]
      by_cases he2 : e.1 = k'
      · rw [if_pos he2, if_pos he2]
      · rw [if_neg he2, if_neg he2]
        exact ih

theorem alGet_append_single_ne {α : Type} (l : List (String × α)) (k k' : String) (v : α)
    (hk : k' ≠ k) :
    alGet (l ++ [(k, v)]) k' = alGet l k' := by
  induction l with
  | nil =>
    rw [List.nil_append, alGet_cons, if_neg (fun h : k = k' => hk h.symm)]
  | cons e es ih =>
    rw [List.cons_append, alGet_cons, alGet_cons]
    by_cases he : e.1 = k'
    · rw [if_pos he, if_pos he]
    · rw [if_neg he, if_neg he]
      exact ih

theorem alSet_cons {α : Type} (e : String × α) (es : List (String × α)) (k : String)
    (v : α) :
    alSet (e :: es) k v =
      if e.1 = k then (k, v) :: es.map (fun x => if x.1 == k then (k, v) else x)
      else e :: alSet es k v := by
  unfold alSet
  by_cases he : e.1 = k
  · rw [if_pos he, List.find?_cons_of_pos _ (by simp [he])]
    simp [he]
  · rw [if_neg he, List.find?_cons_of_neg _ (by simp [he])]
    by_cases hs : (es.find? fun x => x.1 == k).isSome
    · simp only [hs, if_true, List.map_cons]
      congr 1
      simp [he]
    · simp only [hs, Bool.false_eq_true, if_false, List.cons_append]

theorem alGet_alSet_self {α : Type} (l : List (String × α)) (k : String) (v : α) :
    alGet (alSet l k v) k = some v := by
  induction l with
  | nil =>
    show alGet (alSet [] k v) k = some v
    unfold alSet
    simp only [List.find?_nil, Option.isSome_none, Bool.false_eq_true, if_false,
      List.nil_append]
    rw [alGet_cons, if_pos rfl]
  | cons e es ih =>
    rw [alSet_cons]
    by_cases he : e.1 = k
    · rw [if_pos he, alGet_cons, if_pos rfl]
    · rw [if_neg he, alGet_cons, if_neg he]
      exact ih

theorem alGet_alSet_ne {α : Type} (l : List (String × α)) (k k' : String) (v : α)
    (hk : k' ≠ k) :
    alGet (alSet l k v) k' = alGet l k' := by
  induction l with
  | nil =>
    show alGet (alSet [] k v) k' = alGet [] k'
    unfold alSet
    simp only [List.find?_nil, Option.isSome_none, Bool.false_eq_true, if_false,
      List.nil_append]
    rw [alGet_cons, if_neg (fun h : k = k' => hk h.symm)]
  | cons e es ih =>
    rw [alSet_cons]
    by_cases he : e.1 = k
    · have h2 : ¬ e.1 = k' := fun h => hk (h.symm.trans he)
      rw [if_pos he, alGet_cons, alGet_cons, if_neg (fun h : k = k' => hk h.symm), if_neg h2]
      exact alGet_map_keyfix es k k' v hk
    · rw [if_neg he, alGet_cons, alGet_cons]
      by_cases he2 : e.1 = k'
      · rw [if_pos he2, if_pos he2]
      · rw [if_neg he2, if_neg he2]
        exact ih

theorem alGet_filter_ne {α : Type} (l : List (String × α)) (other k : String)
    (hk : k ≠ other) :
    alGet (l.filter fun e => !(e.1 == other)) k = alGet l k := by
  induction l with
  | nil => rfl
  | cons e es ih =>
    rw [List.filter_cons, alGet_cons]
    by_cases ho : e.1 = other
    · have h1 : (!(e.1 == other)) = false := by simp [ho]
      have h2 : ¬ e.1 = k := fun h => hk (h ▸ ho)
      rw [h1, if_neg h2]
      simp only [Bool.false_eq_true, if_false]
      exact ih
    · have h1 : (!(e.1 == other)) = true := by simp [ho]
      rw [h1, if_pos rfl, alGet_cons]
      by_cases he : e.1 = k
      · rw [if_pos he, if_pos he]
      · rw [if_neg he, if_neg he]
        exact ih

theorem alGet_eq_none_of_forall {α : Type} (l : List (String × α)) (k : String)
    (h : ∀ e ∈ l, ¬ e.1 = k) : alGet l k = none := by
  unfold alGet
  rw [List.find?_eq_none.mpr]
  · rfl
  · intro e he
    simp [h e he]

theorem forall_of_alGet_eq_none {α : Type} (l : List (String × α)) (k : String)
    (h : alGet l k = none) : ∀ e ∈ l, ¬ e.1 = k := by
  intro e he hk
  unfold alGet at h
  rcases Option.map_eq_none'.mp h with hfind
  have := List.find?_eq_none.mp hfind e he
  simp [hk] at this

theorem alGet_filter_none {α : Type} (l : List (String × α)) (q : String × α → Bool)
    (k : String) (h : alGet l k = none) : alGet (l.filter q) k = none := by
  apply alGet_eq_none_of_forall
  intro e he
  exact forall_of_alGet_eq_none l k h e (List.mem_of_mem_filter he)

/-! ## Characterization of `markParticipantAsLeftBySid` -/

theorem SidsUnique.map_preserve {l : List Participant} (hS : SidsUnique l)
    (f : Participant → Participant)
    (hf : ∀ r, (f r).livekitParticipantSid = r.livekitParticipantSid)
    (hinj : ∀ a ∈ l, ∀ b ∈ l, a = b → f a = f b) :
    SidsUnique (l.map f) := by
  intro p hp q hq hsome heq
  rcases List.mem_map.mp hp with ⟨a, ha, rfl⟩
  rcases List.mem_map.mp hq with ⟨b, hb, rfl⟩
  have : a = b := by
    apply hS a ha b hb
    · rw [hf a] at hsome; exact hsome
    · rw [hf a, hf b] at heq; exact heq
  exact hinj a ha b hb this

theorem mark_not_found (db : DurableDB) (sid : String) (now : Nat)
    (h : ∀ q ∈ db.participants, ¬ q.livekitParticipantSid = some sid) :
    markParticipantAsLeftBySid db sid now = (false, db) := by
  unfold markParticipantAsLeftBySid
  rw [List.find?_eq_none.mpr]
  intro q hq
  simp [h q hq]

theorem mark_found_joined (db : DurableDB) (sid : String) (now : Nat) (q : Participant)
    (hq : q ∈ db.participants) (hsid : q.livekitParticipantSid = some sid)
    (hj : q.status = ParticipantStatus.JOINED) (hS : SidsUnique db.participants) :
    markParticipantAsLeftBySid db sid now =
      (true,
        { db with
          participants :=
            db.participants.map fun r => if r.id == q.id then markLeft r now else r }) := by
  unfold markParticipantAsLeftBySid
  rw [find?_eq_some_of_unique _ _ q hq (by simp [hsid]) ?uniq]
  · simp [hj]
  case uniq =>
    intro b hb hpb
    have hb' : b.livekitParticipantSid = some sid := by simpa using hpb
    exact hS b hb q hq (by simp [hb']) (hb'.trans hsid.symm)

theorem mark_found_left (db : DurableDB) (sid : String) (now : Nat) (q : Participant)
    (hq : q ∈ db.participants) (hsid : q.livekitParticipantSid = some sid)
    (hl : q.status = ParticipantStatus.LEFT) (hS : SidsUnique db.participants) :
    markParticipantAsLeftBySid db sid now = (false, db) := by
  unfold markParticipantAsLeftBySid
  rw [find?_eq_some_of_unique _ _ q hq (by simp [hsid]) ?uniq]
  · simp [hl]
  case uniq =>
    intro b hb hpb
    have hb' : b.livekitParticipantSid = some sid := by simpa using hpb
    exact hS b hb q hq (by simp [hb']) (hb'.trans hsid.symm)

/-! ## C4: a stale token never touches the current participant row -/

/-- Claim C4: if two Participant rows share the same user id and session id but
carry different correlation tokens, applying the leave operation with the
first (stale) token never modifies the row holding the second (current) token:
that row is returned unchanged at its position (hence its status — `JOINED` or
otherwise — and every other field are untouched). Stated for any row whose
token differs from the one being left, which subsumes the rejoin scenario; the
only assumption is the schema's primary-key uniqueness of row ids. -/
theorem leave_by_stale_token_frame (db : DurableDB) (sid s2 : String) (now i : Nat)
    (p2 : Participant)
    (hIds : (db.participants.map (fun p => p.id)).Nodup)
    (hget : db.participants[i]? = some p2)
    (hsid2 : p2.livekitParticipantSid = some s2)
    (hne : s2 ≠ sid) :
    ((markParticipantAsLeftBySid db sid now).2).participants[i]? = some p2 := by
  unfold markParticipantAsLeftBySid
  cases hfind : db.participants.find? (fun p => p.livekitParticipantSid == some sid) with
  | none => exact hget
  | some q =>
    have hqmem : q ∈ db.participants := List.mem_of_find?_eq_some hfind
    have hqsid : q.livekitParticipantSid = some sid := by
      simpa using List.find?_some hfind
    by_cases hqs : q.status = ParticipantStatus.LEFT
    · simp only [hqs, if_pos rfl]
      exact hget
    · simp only [if_neg hqs]
      rw [List.getElem?_map, hget]
      have hp2mem : p2 ∈ db.participants := List.getElem?_mem hget
      have hne2 : ¬ p2.id = q.id := by
        intro hid
        have : p2 = q := List.inj_on_of_nodup_map hIds hp2mem hqmem hid
        rw [this, hqsid] at hsid2
        exact hne (Option.some.inj hsid2.symm)
      simp [hne2]

/-- Witness for C4 at a concrete database: the second participant (token
`PA2`) is untouched by a leave with the stale token `PA1`. -/
theorem leave_by_stale_token_frame_witness :
    (markParticipantAsLeftBySid
        { livestreams := [sampleLivestream]
          participants := [sampleParticipant,
            { sampleParticipant with id := "p9", livekitParticipantSid := some "PA2" }]
          webhookEvents := [] } "PA1" 7).2.participants[1]? =
      some { sampleParticipant with id := "p9", livekitParticipantSid := some "PA2" } :=
  leave_by_stale_token_frame _ "PA1" "PA2" 7 1 _ (by decide) (by decide) (by decide)
    (by decide)

/-! ## C8: the token-scoped leave operation is idempotent -/

/-- Claim C8: with a `JOINED` participant `q` holding token `sid` (tokens being
unique per the schema), the first `markParticipantAsLeftBySid` call returns
`true` and updates exactly the rows with `q`'s primary key to `LEFT` with a
leave timestamp; a second call with the same token is a no-op returning
`false`; and a call whose token matches no row is a no-op returning `false`.
The pure model cannot raise: the source's `DatabaseError` wraps only
infrastructure failures, and its P2025 catch also returns `false`. -/
theorem mark_by_sid_idempotent (db : DurableDB) (sid : String) (now now2 : Nat)
    (q : Participant) (hq : q ∈ db.participants)
    (hsid : q.livekitParticipantSid = some sid)
    (hj : q.status = ParticipantStatus.JOINED)
    (hS : SidsUnique db.participants) :
    markParticipantAsLeftBySid db sid now =
      (true,
        { db with
          participants :=
            db.participants.map fun r => if r.id == q.id then markLeft r now else r }) ∧
    markParticipantAsLeftBySid (markParticipantAsLeftBySid db sid now).2 sid now2 =
      (false, (markParticipantAsLeftBySid db sid now).2) ∧
    (∀ db2 : DurableDB, (∀ r ∈ db2.participants, ¬ r.livekitParticipantSid = some sid) →
      markParticipantAsLeftBySid db2 sid now2 = (false, db2)) := by
  have hfirst := mark_found_joined db sid now q hq hsid hj hS
  refine ⟨hfirst, ?_, fun db2 h2 => mark_not_found db2 sid now2 h2⟩
  rw [hfirst]
  set f : Participant → Participant :=
    fun r => if r.id == q.id then markLeft r now else r with hf
  have hfsid : ∀ r, (f r).livekitParticipantSid = r.livekitParticipantSid := by
    intro r
    rw [hf]
    by_cases h : r.id == q.id
    · simp [h, markLeft]
    · simp [h]
  have hS' : SidsUnique (db.participants.map f) :=
    hS.map_preserve f hfsid (fun a _ b _ hab => congrArg f hab)
  have hfq : f q = markLeft q now := by
    rw [hf]
    simp
  have hmem : markLeft q now ∈ db.participants.map f :=
    hfq ▸ List.mem_map_of_mem f hq
  exact mark_found_left _ sid now2 (markLeft q now) hmem (by simpa [markLeft] using hsid)
    (by simp [markLeft]) hS'

/-- Witness for C8 at a concrete database: flipping `sampleParticipant` by its
token succeeds once and is a no-op afterwards. -/
theorem mark_by_sid_idempotent_witness :
    markParticipantAsLeftBySid sampleWorld.db "PA1" 9 =
      (true,
        { sampleWorld.db with
          participants :=
            sampleWorld.db.participants.map fun r =>
              if r.id == "p1" then markLeft r 9 else r }) ∧
    markParticipantAsLeftBySid (markParticipantAsLeftBySid sampleWorld.db "PA1" 9).2
        "PA1" 10 =
      (false, (markParticipantAsLeftBySid sampleWorld.db "PA1" 9).2) := by
  have h := mark_by_sid_idempotent sampleWorld.db "PA1" 9 10 sampleParticipant
    (by decide) (by decide) (by decide) (by decide)
  exact ⟨h.1, h.2.1⟩

/-! ## C7: duplicate ledger inserts are benign -/

/-- Claim C7: recording a notification id whose ledger row already exists (the
duplicate-insert race, Prisma P2002) returns normally with the ledger
unchanged — the unique-violation is caught inside `recordWebhookProcessed` and
never surfaced to its caller; a fresh id inserts its row normally. -/
theorem record_webhook_duplicate_benign (db : DurableDB) (webhookId event : String) :
    (checkWebhookProcessed db webhookId = true →
      recordWebhookProcessed db webhookId event = Except.ok db) ∧
    (checkWebhookProcessed db webhookId = false →
      recordWebhookProcessed db webhookId event =
        Except.ok
          { db with
            webhookEvents := db.webhookEvents ++ [{ id := webhookId, event := event }] }) := by
  constructor
  · intro h
    simp [recordWebhookProcessed, webhookEventCreate, h]
  · intro h
    simp [recordWebhookProcessed, webhookEventCreate, h]

/-- Witness for C7: inserting the already-recorded id `wh1` is a normal
success, with the ledger untouched. -/
theorem record_webhook_duplicate_benign_witness :
    recordWebhookProcessed
        { livestreams := [], participants := [],
          webhookEvents := [{ id := "wh1", event := "room_started" }] }
        "wh1" "room_started" =
      Except.ok
        { livestreams := [], participants := [],
          webhookEvents := [{ id := "wh1", event := "room_started" }] } :=
  (record_webhook_duplicate_benign _ "wh1" "room_started").1 (by decide)

/-! ## C6: webhook intake response statuses -/

/-- Counterexample to claim C6 as stated: when the raw body does not arrive as
a Buffer the handler responds 400, which is neither the claimed 200 nor 401 —
so the status is not 200 in every non-signature-failure case. -/
theorem webhook_route_status_counterexample :
    webhookLivekitRoute false none false = 400 ∧ (400 : Nat) ≠ 200 ∧ (400 : Nat) ≠ 401 := by
  decide

/-- Claim C6 as amended: once the intake handler is reached, the status is 400
when the raw body is not a Buffer (a guard that precedes signature
verification), 401 exactly when the body is a Buffer and signature
verification fails, and 200 in every other case — in particular even when
enqueueing throws — so internal and business-logic failures are never exposed
to the sender. -/
theorem webhook_route_status (v : Option WebhookEvent) (e : Bool) :
    webhookLivekitRoute true none e = 401 ∧
    (∀ ev : WebhookEvent, webhookLivekitRoute true (some ev) e = 200) ∧
    webhookLivekitRoute false v e = 400 := by
  refine ⟨rfl, fun ev => ?_, rfl⟩
  cases e <;> rfl

/-- Witness for C6 (amended) at concrete inputs, including a throwing
enqueue. -/
theorem webhook_route_status_witness :
    webhookLivekitRoute true none true = 401 ∧
    webhookLivekitRoute true (some sampleRoomFinishedEvent) true = 200 ∧
    webhookLivekitRoute false none true = 400 := by
  have h := webhook_route_status none true
  exact ⟨h.1, h.2.1 sampleRoomFinishedEvent, h.2.2⟩

/-! ## Durable-store components untouched by the state service -/

theorem setState_db (w : World) (id : String) (s : StreamState) :
    (setState w id s).db = w.db := rfl

theorem broadcastStateEvent_db (w : World) (id : String) (ty : StateEventType) :
    (broadcastStateEvent w id ty).db = w.db := rfl

theorem closeConnectionsForStream_db (w : World) (id : String) :
    (closeConnectionsForStream w id).db = w.db := rfl

theorem checkAndBroadcastViewerCount_db (w : World) (id : String) (st : StreamState)
    (now : Nat) : (checkAndBroadcastViewerCount w id st now).db = w.db := by
  unfold checkAndBroadcastViewerCount
  cases h : alGet w.throttles id with
  | none => rfl
  | some t =>
    by_cases h2 : shouldBroadcastViewer t now st.viewerCount
    · simp only [h2, if_true]
      rfl
    · simp only [h2, Bool.false_eq_true, if_false]

theorem handleParticipantJoined_db (w : World) (id userId : String) (now : Nat) :
    (handleParticipantJoined w id userId now).db = w.db := by
  unfold handleParticipantJoined
  cases h : getState w id with
  | none => rfl
  | some st =>
    by_cases h2 : userId ∈ st.participants
    · simp only [h2, if_pos]
    · simp only [h2, if_neg, if_false, not_false_iff]
      rw [checkAndBroadcastViewerCount_db, setState_db]

theorem handleParticipantLeft_db (w : World) (id userId : String) (now : Nat) :
    (handleParticipantLeft w id userId now).db = w.db := by
  unfold handleParticipantLeft
  cases h : getState w id with
  | none => rfl
  | some st =>
    by_cases h2 : userId ∈ st.participants
    · simp only [h2, if_pos]
      rw [checkAndBroadcastViewerCount_db, setState_db]
    · simp only [h2, if_neg, not_false_iff]

theorem handleRoomEnded_db (w : World) (id : String) :
    (handleRoomEnded w id).db = w.db := by
  unfold handleRoomEnded
  cases h : getState w id with
  | none => rfl
  | some st => rfl

/-! ## Ledger rows untouched by the orchestrator -/

theorem mark_snd_webhookEvents (db : DurableDB) (sid : String) (now : Nat) :
    (markParticipantAsLeftBySid db sid now).2.webhookEvents = db.webhookEvents := by
  unfold markParticipantAsLeftBySid
  cases h : db.participants.find? (fun p => p.livekitParticipantSid == some sid) with
  | none => rfl
  | some p =>
    by_cases h2 : p.status = ParticipantStatus.LEFT
    · simp only [h2, if_pos]
    · simp only [h2, if_neg, not_false_iff]

theorem mark_snd_livestreams (db : DurableDB) (sid : String) (now : Nat) :
    (markParticipantAsLeftBySid db sid now).2.livestreams = db.livestreams := by
  unfold markParticipantAsLeftBySid
  cases h : db.participants.find? (fun p => p.livekitParticipantSid == some sid) with
  | none => rfl
  | some p =>
    by_cases h2 : p.status = ParticipantStatus.LEFT
    · simp only [h2, if_pos]
    · simp only [h2, if_neg, not_false_iff]

theorem updateSids_snd_webhookEvents (db : DurableDB) (userId livestreamId psid rsid : String) :
    (updateParticipantWithLiveKitSids db userId livestreamId psid rsid).2.webhookEvents =
      db.webhookEvents := by
  unfold updateParticipantWithLiveKitSids
  cases h : findMostRecentPending db userId livestreamId <;> rfl

theorem roomFinishedFold_webhookEvents (ps : List Participant) (now : Nat) :
    ∀ w : World,
      ((ps.foldl
          (fun acc p =>
            match p.livekitParticipantSid with
            | some sid => { acc with db := (markParticipantAsLeftBySid acc.db sid now).2 }
            | none => acc)
          w).db.webhookEvents = w.db.webhookEvents) := by
  induction ps with
  | nil => intro w; rfl
  | cons p ps ih =>
    intro w
    rw [List.foldl_cons]
    cases h : p.livekitParticipantSid with
    | none => exact ih w
    | some sid => exact (ih _).trans (mark_snd_webhookEvents w.db sid now)

theorem handleRoomFinished_webhookEvents (w : World) (r : RoomInfo) (now : Nat) :
    (handleRoomFinished w r now).db.webhookEvents = w.db.webhookEvents := by
  unfold handleRoomFinished
  cases h : getLivestreamByRoomName w.db r.name with
  | none => rfl
  | some ls =>
    rw [handleRoomEnded_db]
    exact roomFinishedFold_webhookEvents _ now w

theorem handleWebhookEvent_webhookEvents (w : World) (ev : WebhookEvent) (now : Nat) :
    (handleWebhookEvent w ev now).db.webhookEvents = w.db.webhookEvents := by
  unfold handleWebhookEvent
  by_cases h1 : ev.event = "participant_joined"
  · rw [if_pos (by simp [h1])]
    cases hp : ev.participant with
    | none => cases hr : ev.room <;> rfl
    | some pInfo =>
      cases hr : ev.room with
      | none => rfl
      | some r =>
        cases hls : getLivestreamByRoomName w.db r.name with
        | none => simp only [hls]
        | some ls =>
          simp only [hls]
          cases hupd : (updateParticipantWithLiveKitSids w.db pInfo.identity ls.id
              pInfo.sid r.sid).1 with
          | none =>
            simp only [hupd]
            exact updateSids_snd_webhookEvents w.db pInfo.identity ls.id pInfo.sid r.sid
          | some u =>
            simp only [hupd]
            rw [handleParticipantJoined_db]
            exact updateSids_snd_webhookEvents w.db pInfo.identity ls.id pInfo.sid r.sid
  · rw [if_neg (by simp [h1])]
    by_cases h2 : ev.event = "participant_left"
    · rw [if_pos (by simp [h2])]
      cases hp : ev.participant with
      | none => cases hr : ev.room <;> rfl
      | some pInfo =>
        cases hr : ev.room with
        | none => rfl
        | some r =>
          by_cases hflag : (markParticipantAsLeftBySid w.db pInfo.sid now).1 = true
          · simp only [hflag, if_true]
            cases hls : getLivestreamByRoomName
                (markParticipantAsLeftBySid w.db pInfo.sid now).2 r.name with
            | none =>
              simp only [hls]
              exact mark_snd_webhookEvents w.db pInfo.sid now
            | some ls =>
              simp only [hls]
              rw [handleParticipantLeft_db]
              exact mark_snd_webhookEvents w.db pInfo.sid now
          · simp only [Bool.not_eq_true] at hflag
            simp only [hflag, Bool.false_eq_true, if_false]
            exact mark_snd_webhookEvents w.db pInfo.sid now
    · rw [if_neg (by simp [h2])]
      by_cases h3 : ev.event = "room_started"
      · rw [if_pos (by simp [h3])]
        cases hr : ev.room with
        | none => rfl
        | some r =>
          cases hls : getLivestreamByRoomName w.db r.name with
          | none => simp only [hls]
          | some ls =>
            simp only [hls]
            cases hst : getState w ls.id with
            | none => simp only [hst]
            | some st => simp only [hst]; rfl
      · rw [if_neg (by simp [h3])]
        by_cases h4 : ev.event = "room_finished"
        · rw [if_pos (by simp [h4])]
          cases hr : ev.room with
          | none => rfl
          | some r => exact handleRoomFinished_webhookEvents w r now
        · rw [if_neg (by simp [h4])]

/-! ## C1: processor-level idempotency -/

/-- Claim C1: for a dequeued job, if the ledger already holds the job's
webhook id the processor returns success with the world unchanged (the
orchestrator is not invoked); otherwise the ledger row is inserted first and
the orchestrator runs on the world already containing that row; consequently
processing the same job a second time is a no-op, so the state change is
applied exactly once. -/
theorem notification_processor_dedup (w : World) (job : WebhookJob) (now now2 : Nat) :
    (checkWebhookProcessed w.db job.webhookId = true →
      processWebhook w job now = Except.ok w) ∧
    (checkWebhookProcessed w.db job.webhookId = false →
      processWebhook w job now =
        Except.ok
          (handleWebhookEvent
            { w with
              db :=
                { w.db with
                  webhookEvents :=
                    w.db.webhookEvents ++ [{ id := job.webhookId, event := job.event }] } }
            job.payload now) ∧
      ∀ w2, processWebhook w job now = Except.ok w2 →
        processWebhook w2 job now2 = Except.ok w2) := by
  constructor
  · intro h
    simp [processWebhook, h]
  · intro h
    have hrun : processWebhook w job now =
        Except.ok
          (handleWebhookEvent
            { w with
              db :=
                { w.db with
                  webhookEvents :=
                    w.db.webhookEvents ++ [{ id := job.webhookId, event := job.event }] } }
            job.payload now) := by
      simp [processWebhook, recordWebhookProcessed, webhookEventCreate, h]
    refine ⟨hrun, fun w2 hw2 => ?_⟩
    rw [hrun] at hw2
    have hw2' := Except.ok.inj hw2
    have hledger : w2.db.webhookEvents =
        w.db.webhookEvents ++ [{ id := job.webhookId, event := job.event }] := by
      rw [← hw2']
      exact handleWebhookEvent_webhookEvents _ job.payload now
    have hcheck : checkWebhookProcessed w2.db job.webhookId = true := by
      unfold checkWebhookProcessed
      rw [hledger, List.find?_append]
      simp
    simp [processWebhook, hcheck]

/-- Witness for C1: processing the `room_finished` job twice from
`sampleWorld` equals processing it once, and the ledger-first shape holds. -/
theorem notification_processor_dedup_witness :
    processWebhook sampleWorld
        { webhookId := "wh1", event := "room_finished", payload := sampleRoomFinishedEvent }
        5 =
      Except.ok
        (handleWebhookEvent
          { sampleWorld with
            db :=
              { sampleWorld.db with
                webhookEvents :=
                  sampleWorld.db.webhookEvents ++
                    [{ id := "wh1", event := "room_finished" }] } }
          sampleRoomFinishedEvent 5) := by
  have h := notification_processor_dedup sampleWorld
    { webhookId := "wh1", event := "room_finished", payload := sampleRoomFinishedEvent }
    5 6
  exact (h.2 (by decide)).1

/-! ## C10: ephemeral state invariants -/

theorem mem_alSet {α : Type} (l : List (String × α)) (k : String) (v : α)
    (e : String × α) (he : e ∈ alSet l k v) : e ∈ l ∨ e = (k, v) := by
  unfold alSet at he
  by_cases hs : (l.find? fun x => x.1 == k).isSome
  · simp only [hs, if_true] at he
    rcases List.mem_map.mp he with ⟨x, hx, hfx⟩
    by_cases hxk : x.1 == k
    · right
      rw [← hfx]
      simp [hxk]
    · left
      rw [← hfx]
      simpa [hxk] using hx
  · simp only [hs, Bool.false_eq_true, if_false] at he
    rcases List.mem_append.mp he with h | h
    · exact Or.inl h
    · exact Or.inr (List.mem_singleton.mp h)

theorem streamInv_of_getState (w : World) (id : String) (st : StreamState)
    (hw : StatesInv w) (h : getState w id = some st) : StreamInv st := by
  unfold getState alGet at h
  cases hfind : w.states.find? (fun e => e.1 == id) with
  | none => rw [hfind] at h; cases h
  | some e =>
    rw [hfind] at h
    have he : e ∈ w.states := List.mem_of_find?_eq_some hfind
    have : e.2 = st := Option.some.inj h
    exact this ▸ hw e he

theorem statesInv_setState (w : World) (id : String) (s : StreamState)
    (hw : StatesInv w) (hs : StreamInv s) : StatesInv (setState w id s) := by
  intro e he
  rcases mem_alSet w.states id s e he with h | h
  · exact hw e h
  · rw [h]
    exact hs

theorem checkAndBroadcastViewerCount_states (w : World) (id : String)
    (st : StreamState) (now : Nat) :
    (checkAndBroadcastViewerCount w id st now).states = w.states := by
  unfold checkAndBroadcastViewerCount
  cases h : alGet w.throttles id with
  | none => rfl
  | some t =>
    by_cases h2 : shouldBroadcastViewer t now st.viewerCount
    · simp only [h2, if_true]
      rfl
    · simp only [h2, Bool.false_eq_true, if_false]

theorem applyJoin_inv (st : StreamState) (u : String) (h : StreamInv st)
    (hu : u ∉ st.participants) : StreamInv (applyJoin st u) := by
  refine ⟨rfl, ?_, ?_⟩
  · refine List.nodup_append.mpr ⟨h.2.1, List.nodup_singleton u, ?_⟩
    intro a ha hb
    rw [List.mem_singleton] at hb
    exact hu (hb ▸ ha)
  · show (st.participants ++ [u]).length ≤
      (if (st.participants ++ [u]).length > st.peakViewerCount
        then (st.participants ++ [u]).length else st.peakViewerCount)
    by_cases hgt : (st.participants ++ [u]).length > st.peakViewerCount
    · rw [if_pos hgt]
    · rw [if_neg hgt]
      omega

theorem applyLeave_inv (st : StreamState) (u : String) (h : StreamInv st) :
    StreamInv (applyLeave st u) := by
  refine ⟨rfl, h.2.1.erase u, ?_⟩
  show (st.participants.erase u).length ≤ st.peakViewerCount
  calc (st.participants.erase u).length ≤ st.participants.length :=
        (List.erase_sublist u st.participants).length_le
    _ ≤ st.peakViewerCount := h.1 ▸ h.2.2

/-- Claim C10: the state produced by `initializeState` satisfies the invariant
(viewer count mirrors the participant list, no duplicate user ids, peak is an
upper bound), the invariant is preserved across the store by
`handleParticipantJoined` and `handleParticipantLeft`, and a join for a user
id already present in the list changes nothing at all — in particular
`totalViewers` and `peakViewerCount` are not incremented. -/
theorem ephemeral_state_invariants :
    (∀ (id : String) (host : HostInfo) (t : Nat),
      StreamInv (initialStreamState id host t)) ∧
    (∀ (w : World) (id : String) (host : HostInfo) (t : Nat),
      StatesInv w → StatesInv (initState w id host t)) ∧
    (∀ (w : World) (id u : String) (now : Nat),
      StatesInv w → StatesInv (handleParticipantJoined w id u now)) ∧
    (∀ (w : World) (id u : String) (now : Nat),
      StatesInv w → StatesInv (handleParticipantLeft w id u now)) ∧
    (∀ (w : World) (id u : String) (now : Nat) (st : StreamState),
      getState w id = some st → u ∈ st.participants →
      handleParticipantJoined w id u now = w) := by
  refine ⟨?_, ?_, ?_, ?_, ?_⟩
  · intro id host t
    exact ⟨rfl, List.nodup_nil, Nat.le_refl 0⟩
  · intro w id host t hw
    exact statesInv_setState w id _ hw ⟨rfl, List.nodup_nil, Nat.le_refl 0⟩
  · intro w id u now hw
    unfold handleParticipantJoined
    cases hst : getState w id with
    | none => exact hw
    | some st =>
      by_cases hmem : u ∈ st.participants
      · simp only [hmem, if_pos]
        exact hw
      · simp only [hmem, if_neg, not_false_iff, Bool.false_eq_true, if_false]
        intro e he
        rw [checkAndBroadcastViewerCount_states] at he
        exact statesInv_setState w id _ hw
          (applyJoin_inv st u (streamInv_of_getState w id st hw hst) hmem) e he
  · intro w id u now hw
    unfold handleParticipantLeft
    cases hst : getState w id with
    | none => exact hw
    | some st =>
      by_cases hmem : u ∈ st.participants
      · simp only [hmem, if_pos]
        intro e he
        rw [checkAndBroadcastViewerCount_states] at he
        exact statesInv_setState w id _ hw
          (applyLeave_inv st u (streamInv_of_getState w id st hw hst)) e he
      · simp only [hmem, if_neg, not_false_iff, Bool.false_eq_true, if_false]
        exact hw
  · intro w id u now st hst hmem
    unfold handleParticipantJoined
    rw [hst]
    simp only [hmem, if_pos]

/-- Witness for C10: the invariants hold after a join on `sampleWorld`, and a
duplicate join is a strict no-op on a world whose state already lists the
user. -/
theorem ephemeral_state_invariants_witness :
    StatesInv (handleParticipantJoined sampleWorld "ls1" "u3" 4) ∧
    handleParticipantJoined
        { sampleWorld with
          states :=
            [("ls1",
              applyJoin (initialStreamState "ls1" { userId := "u1", displayName := "host" } 0)
                "u1")] }
        "ls1" "u1" 4 =
      { sampleWorld with
        states :=
          [("ls1",
            applyJoin (initialStreamState "ls1" { userId := "u1", displayName := "host" } 0)
              "u1")] } := by
  constructor
  · exact ephemeral_state_invariants.2.2.1 sampleWorld "ls1" "u3" 4 (by decide)
  · exact ephemeral_state_invariants.2.2.2.2 _ "ls1" "u1" 4
      (applyJoin (initialStreamState "ls1" { userId := "u1", displayName := "host" } 0) "u1")
      (by decide) (by decide)

/-! ## C5: viewer-count broadcast throttling -/

theorem shouldBroadcastViewer_iff (t : ViewerCountThrottle) (now count : Nat) :
    shouldBroadcastViewer t now count = true ↔
      (5000 ≤ now - t.lastBroadcastTime ∧
        (t.lastBroadcastCount ≤ 10 * ((count : Int) - (t.lastBroadcastCount : Int)).natAbs ∨
          5 ≤ ((count : Int) - (t.lastBroadcastCount : Int)).natAbs)) := by
  unfold shouldBroadcastViewer
  simp only [Bool.and_eq_true, Bool.or_eq_true, decide_eq_true_eq]
  set d : Nat := ((count : Int) - (t.lastBroadcastCount : Int)).natAbs with hd
  have key :
      ((1 : ℚ) / 10 ≤
          (if t.lastBroadcastCount > 0 then ((d : ℚ) / (t.lastBroadcastCount : ℚ)) else 1)) ↔
        (t.lastBroadcastCount ≤ 10 * d) := by
    by_cases hc : t.lastBroadcastCount > 0
    · rw [if_pos hc, div_le_div_iff₀ (by norm_num) (by exact_mod_cast hc)]
      constructor
      · intro h
        have h' : (t.lastBroadcastCount : ℚ) ≤ 10 * (d : ℚ) := by linarith
        exact_mod_cast h'
      · intro h
        have h' : (t.lastBroadcastCount : ℚ) ≤ 10 * (d : ℚ) := by exact_mod_cast h
        linarith
    · have hc0 : t.lastBroadcastCount = 0 := by omega
      rw [if_neg hc]
      constructor
      · intro _
        rw [hc0]
        exact Nat.zero_le _
      · intro _
        norm_num
  rw [key]

/-- The step characterization: with an existing throttle entry, a viewer-count
check either broadcasts (refreshing the throttle) or leaves the world
untouched, according to `shouldBroadcastViewer`. -/
theorem checkAndBroadcast_step (w : World) (id : String) (st : StreamState) (now : Nat)
    (t : ViewerCountThrottle) (h : alGet w.throttles id = some t) :
    checkAndBroadcastViewerCount w id st now =
      (if shouldBroadcastViewer t now st.viewerCount then
        broadcastStateEvent
          { w with
            throttles :=
              alSet w.throttles id
                { lastBroadcastCount := st.viewerCount, lastBroadcastTime := now } }
          id StateEventType.viewer_count_update
      else w) := by
  unfold checkAndBroadcastViewerCount
  rw [h]

theorem viewerBurst_noop (id : String) (c1 t1 : Nat) (rest : List (Nat × Nat))
    (hsmall : ∀ u ∈ rest,
      10 * ((u.2 : Int) - (c1 : Int)).natAbs < c1 ∧ ((u.2 : Int) - (c1 : Int)).natAbs < 5) :
    ∀ w : World,
      alGet w.throttles id = some { lastBroadcastCount := c1, lastBroadcastTime := t1 } →
      viewerUpdatesRun w id rest = w := by
  induction rest with
  | nil => intro w _; rfl
  | cons u rest ih =>
    intro w h
    have hu := hsmall u (List.mem_cons_self u rest)
    have hc1 : 0 < c1 := by omega
    have hfalse : shouldBroadcastViewer
        { lastBroadcastCount := c1, lastBroadcastTime := t1 } u.1
        (mkViewerState id u.2).viewerCount = false := by
      have hvc : (mkViewerState id u.2).viewerCount = u.2 := rfl
      rw [hvc]
      rw [Bool.eq_false_iff]
      intro htrue
      rcases (shouldBroadcastViewer_iff _ u.1 u.2).mp htrue with ⟨_, hor⟩
      rcases hor with hrel | habs
      · simp only at hrel
        omega
      · simp only at habs
        omega
    have hstep : checkAndBroadcastViewerCount w id (mkViewerState id u.2) u.1 = w := by
      rw [checkAndBroadcast_step w id _ u.1 _ h, hfalse]
      rfl
    show viewerUpdatesRun w id (u :: rest) = w
    unfold viewerUpdatesRun
    rw [List.foldl_cons, hstep]
    exact ih (fun v hv => hsmall v (List.mem_cons_of_mem u hv)) w h

/-- Claim C5: a viewer-count broadcast fires exactly when (a) no broadcast has
yet occurred for the session — the first update always broadcasts — or (b) at
least 5000 ms have elapsed since the last broadcast AND the count moved by at
least 10% of the last broadcast count or by at least 5 (the relative test
being vacuous against a zero baseline); consequently a burst of updates whose
counts stay strictly below both thresholds relative to the first broadcast,
arriving less than 5 s apart, yields exactly one broadcast. -/
theorem viewer_count_throttle (w : World) (id : String) (st : StreamState) (now : Nat) :
    (alGet w.throttles id = none →
      checkAndBroadcastViewerCount w id st now =
        broadcastStateEvent
          { w with
            throttles :=
              alSet w.throttles id
                { lastBroadcastCount := st.viewerCount, lastBroadcastTime := now } }
          id StateEventType.viewer_count_update) ∧
    (∀ t : ViewerCountThrottle, alGet w.throttles id = some t →
      (shouldBroadcastViewer t now st.viewerCount = true ↔
        (5000 ≤ now - t.lastBroadcastTime ∧
          (t.lastBroadcastCount ≤
              10 * ((st.viewerCount : Int) - (t.lastBroadcastCount : Int)).natAbs ∨
            5 ≤ ((st.viewerCount : Int) - (t.lastBroadcastCount : Int)).natAbs))) ∧
      (shouldBroadcastViewer t now st.viewerCount = false →
        checkAndBroadcastViewerCount w id st now = w) ∧
      (shouldBroadcastViewer t now st.viewerCount = true →
        checkAndBroadcastViewerCount w id st now =
          broadcastStateEvent
            { w with
              throttles :=
                alSet w.throttles id
                  { lastBroadcastCount := st.viewerCount, lastBroadcastTime := now } }
            id StateEventType.viewer_count_update)) ∧
    (∀ (t1 c1 : Nat) (rest : List (Nat × Nat)),
      alGet w.throttles id = none →
      (∀ u ∈ rest,
        10 * ((u.2 : Int) - (c1 : Int)).natAbs < c1 ∧
          ((u.2 : Int) - (c1 : Int)).natAbs < 5) →
      List.Chain' (fun a b : Nat × Nat => b.1 - a.1 < 5000) ((t1, c1) :: rest) →
      (viewerUpdatesRun w id ((t1, c1) :: rest)).events =
        w.events ++ [(id, StateEventType.viewer_count_update)]) := by
  refine ⟨?_, ?_, ?_⟩
  · intro h
    unfold checkAndBroadcastViewerCount
    rw [h]
  · intro t h
    refine ⟨shouldBroadcastViewer_iff t now st.viewerCount, ?_, ?_⟩
    · intro hfalse
      rw [checkAndBroadcast_step w id st now t h, hfalse]
      rfl
    · intro htrue
      rw [checkAndBroadcast_step w id st now t h, htrue]
      rfl
  · intro t1 c1 rest hnone hsmall _
    unfold viewerUpdatesRun
    rw [List.foldl_cons]
    have hfirst : checkAndBroadcastViewerCount w id (mkViewerState id c1) t1 =
        broadcastStateEvent
          { w with
            throttles :=
              alSet w.throttles id { lastBroadcastCount := c1, lastBroadcastTime := t1 } }
          id StateEventType.viewer_count_update := by
      unfold checkAndBroadcastViewerCount
      rw [hnone]
      rfl
    rw [hfirst]
    have hth : alGet
        (broadcastStateEvent
          { w with
            throttles :=
              alSet w.throttles id { lastBroadcastCount := c1, lastBroadcastTime := t1 } }
          id StateEventType.viewer_count_update).throttles id =
        some { lastBroadcastCount := c1, lastBroadcastTime := t1 } :=
      alGet_alSet_self w.throttles id _
    rw [show (List.foldl
        (fun acc u => checkAndBroadcastViewerCount acc id (mkViewerState id u.2) u.1)
        (broadcastStateEvent
          { w with
            throttles :=
              alSet w.throttles id { lastBroadcastCount := c1, lastBroadcastTime := t1 } }
          id StateEventType.viewer_count_update) rest) =
      viewerUpdatesRun
        (broadcastStateEvent
          { w with
            throttles :=
              alSet w.throttles id { lastBroadcastCount := c1, lastBroadcastTime := t1 } }
          id StateEventType.viewer_count_update) id rest from rfl]
    rw [viewerBurst_noop id c1 t1 rest hsmall _ hth]
    rfl

/-- Witness for C5: from a throttle-free world the first update broadcasts and
a sub-threshold burst produces exactly one `viewer_count_update` event. -/
theorem viewer_count_throttle_witness :
    (viewerUpdatesRun sampleWorld "ls1" [(0, 100), (1000, 101), (4500, 96)]).events =
      sampleWorld.events ++ [("ls1", StateEventType.viewer_count_update)] :=
  (viewer_count_throttle sampleWorld "ls1" (mkViewerState "ls1" 0) 0).2.2 0 100
    [(1000, 101), (4500, 96)] (by decide) (by decide) (by norm_num [List.chain'_cons])

/-! ## C9: room-name sanitizer -/

theorem collapseHyphens_head? : ∀ (b : Char) (rest : List Char),
    (collapseHyphens (b :: rest)).head? = some b
  | _, [] => rfl
  | b, c :: r => by
    by_cases h : b = '-' ∧ c = '-'
    · simp only [collapseHyphens, if_pos h]
      rw [collapseHyphens_head? c r, h.1, h.2]
    · simp only [collapseHyphens, if_neg h]
      rfl

theorem collapseHyphens_subset : ∀ l : List Char, ∀ c ∈ collapseHyphens l, c ∈ l
  | [] => by simp [collapseHyphens]
  | [a] => by simp [collapseHyphens]
  | a :: b :: rest => by
    intro c hc
    simp only [collapseHyphens] at hc
    by_cases h : a = '-' ∧ b = '-'
    · rw [if_pos h] at hc
      exact List.mem_cons_of_mem a (collapseHyphens_subset (b :: rest) c hc)
    · rw [if_neg h] at hc
      rcases List.mem_cons.mp hc with h1 | h1
      · exact h1 ▸ List.mem_cons_self a _
      · exact List.mem_cons_of_mem a (collapseHyphens_subset (b :: rest) c h1)

theorem collapseHyphens_chain' : ∀ l : List Char,
    List.Chain' (fun a b => ¬(a = '-' ∧ b = '-')) (collapseHyphens l)
  | [] => by simp [collapseHyphens]
  | [a] => by simp [collapseHyphens]
  | a :: b :: rest => by
    by_cases h : a = '-' ∧ b = '-'
    · simp only [collapseHyphens, if_pos h]
      exact collapseHyphens_chain' (b :: rest)
    · simp only [collapseHyphens, if_neg h]
      rw [List.chain'_cons']
      refine ⟨?_, collapseHyphens_chain' (b :: rest)⟩
      intro y hy
      rw [collapseHyphens_head? b rest] at hy
      have hyb : y = b := by
        rw [Option.mem_def] at hy
        exact (Option.some.inj hy).symm
      intro hc
      exact h ⟨hc.1, hyb ▸ hc.2⟩

theorem chain'_dropLast {α : Type} {R : α → α → Prop} :
    ∀ l : List α, List.Chain' R l → List.Chain' R l.dropLast
  | [], _ => by simp
  | [_], _ => by simp
  | a :: b :: t, h => by
    have h1 : R a b := (List.chain'_cons.mp h).1
    have h2 : List.Chain' R (b :: t) := (List.chain'_cons.mp h).2
    have ih := chain'_dropLast (b :: t) h2
    cases t with
    | nil => simp
    | cons c t2 =>
      rw [List.dropLast_cons₂, List.dropLast_cons₂]
      rw [List.dropLast_cons₂] at ih
      exact List.chain'_cons.mpr ⟨h1, ih⟩

theorem chain'_getLast_dropLast {α : Type} {R : α → α → Prop} :
    ∀ l : List α, List.Chain' R l → ∀ x y : α,
      l.dropLast.getLast? = some x → l.getLast? = some y → R x y
  | [], _, x, y, hx, _ => by simp at hx
  | [_], _, x, y, hx, _ => by simp at hx
  | a :: b :: t, h, x, y, hx, hy => by
    cases t with
    | nil =>
      have hx' : x = a := by
        have h' : a = x := by simpa using hx
        exact h'.symm
      have hy' : y = b := by
        have h' : b = y := by simpa using hy
        exact h'.symm
      rw [hx', hy']
      exact (List.chain'_cons.mp h).1
    | cons c t2 =>
      have h2 := (List.chain'_cons.mp h).2
      apply chain'_getLast_dropLast (b :: c :: t2) h2 x y
      · rw [List.dropLast_cons₂, List.dropLast_cons₂, List.getLast?_cons_cons] at hx
        rw [List.dropLast_cons₂]
        exact hx
      · rw [List.getLast?_cons_cons] at hy
        exact hy

theorem stripEdgeHyphens_spec (l : List Char)
    (hch : List.Chain' (fun a b => ¬(a = '-' ∧ b = '-')) l) :
    (∀ c ∈ stripEdgeHyphens l, c ∈ l) ∧
    List.Chain' (fun a b => ¬(a = '-' ∧ b = '-')) (stripEdgeHyphens l) ∧
    (stripEdgeHyphens l).head? ≠ some '-' ∧
    (stripEdgeHyphens l).getLast? ≠ some '-' := by
  have hdef : stripEdgeHyphens l =
      if (if l.head? = some '-' then l.tail else l).getLast? = some '-' then
        (if l.head? = some '-' then l.tail else l).dropLast
      else (if l.head? = some '-' then l.tail else l) := rfl
  rw [hdef]
  set l1 := if l.head? = some '-' then l.tail else l with hl1
  have hsub1 : ∀ c ∈ l1, c ∈ l := by
    rw [hl1]
    split
    · exact fun c hc => List.mem_of_mem_tail hc
    · exact fun c hc => hc
  have hch1 : List.Chain' (fun a b => ¬(a = '-' ∧ b = '-')) l1 := by
    rw [hl1]
    split
    · exact hch.tail
    · exact hch
  have hhead1 : l1.head? ≠ some '-' := by
    rw [hl1]
    split
    case isTrue hh =>
      cases l with
      | nil => simp at hh
      | cons a t =>
        have ha : a = '-' := by simpa using hh
        cases t with
        | nil => simp
        | cons b t2 =>
          intro hcontra
          have hb : b = '-' := by simpa using hcontra
          exact (List.chain'_cons.mp hch).1 ⟨ha, hb⟩
    case isFalse hh => exact hh
  split
  case isTrue hlast =>
    refine ⟨?_, chain'_dropLast l1 hch1, ?_, ?_⟩
    · intro c hc
      exact hsub1 c ((List.dropLast_sublist l1).subset hc)
    · cases hl : l1 with
      | nil => simp
      | cons a t =>
        cases t with
        | nil => simp
        | cons b t2 =>
          rw [List.dropLast_cons₂]
          intro hc
          apply hhead1
          rw [hl]
          simpa using hc
    · intro hc
      exact (chain'_getLast_dropLast l1 hch1 '-' '-' hc hlast) ⟨rfl, rfl⟩
  case isFalse hlast =>
    exact ⟨hsub1, hch1, hhead1, hlast⟩

theorem replaceDisallowed_allowed (l : List Char) :
    ∀ c ∈ replaceDisallowed l, isAllowedRoomChar c = true := by
  intro c hc
  rcases List.mem_map.mp hc with ⟨x, _, hx⟩
  by_cases hax : isAllowedRoomChar x
  · rw [← hx, if_pos hax]
    exact hax
  · rw [← hx, if_neg hax]
    rfl

/-- Counterexample to claim C9 as stated: the sanitizer leaves `"__a__"`
untouched, so the result starts and ends with an underscore — a separator per
the claim — and contains a repeated separator. -/
theorem sanitize_room_name_counterexample :
    sanitizeRoomName "__a__" = "__a__" ∧
    (sanitizeRoomName "__a__").data.head? = some '_' ∧
    (sanitizeRoomName "__a__").data.getLast? = some '_' := by
  decide

/-- Claim C9 as amended: for every input, the sanitized room name uses only
characters from `[a-z0-9-_]`; hyphen runs are collapsed and edge hyphens are
trimmed, so no two adjacent hyphens remain and the result neither starts nor
ends with a hyphen. Underscores are kept verbatim: they are neither collapsed
nor trimmed. -/
theorem sanitize_room_name_normalized (s : String) :
    (∀ c ∈ (sanitizeRoomName s).data, isAllowedRoomChar c = true) ∧
    List.Chain' (fun a b => ¬(a = '-' ∧ b = '-')) (sanitizeRoomName s).data ∧
    (sanitizeRoomName s).data.head? ≠ some '-' ∧
    (sanitizeRoomName s).data.getLast? ≠ some '-' := by
  have hdata : (sanitizeRoomName s).data =
      stripEdgeHyphens
        (collapseHyphens (replaceDisallowed ((jsTrim s.data).map Char.toLower))) := rfl
  have hch := collapseHyphens_chain' (replaceDisallowed ((jsTrim s.data).map Char.toLower))
  have hspec := stripEdgeHyphens_spec _ hch
  refine ⟨?_, hdata ▸ hspec.2.1, hdata ▸ hspec.2.2.1, hdata ▸ hspec.2.2.2⟩
  intro c hc
  rw [hdata] at hc
  exact replaceDisallowed_allowed _ c
    (collapseHyphens_subset _ c (hspec.1 c hc))

/-- Witness for C9 (amended): a concrete sanitization together with the
no-leading-hyphen guarantee from the theorem. -/
theorem sanitize_room_name_normalized_witness :
    sanitizeRoomName "  My Room!! " = "my-room" ∧
    (sanitizeRoomName "  My Room!! ").data.head? ≠ some '-' :=
  ⟨by decide, (sanitize_room_name_normalized "  My Room!! ").2.2.1⟩

/-! ## The participant sweep shared by `room_finished` and reconciliation -/

theorem markLeft_id (p : Participant) (now : Nat) : (markLeft p now).id = p.id := rfl

theorem markLeft_livestreamId (p : Participant) (now : Nat) :
    (markLeft p now).livestreamId = p.livestreamId := rfl

theorem markLeft_sid (p : Participant) (now : Nat) :
    (markLeft p now).livekitParticipantSid = p.livekitParticipantSid := rfl

theorem roomFinishedFold_eq_markSweep (ps : List Participant) (now : Nat) :
    ∀ w : World,
      (ps.foldl
        (fun acc p =>
          match p.livekitParticipantSid with
          | some sid => { acc with db := (markParticipantAsLeftBySid acc.db sid now).2 }
          | none => acc)
        w) = { w with db := (markSweep w.db ps now).1 } := by
  induction ps with
  | nil => intro w; rfl
  | cons p ps ih =>
    intro w
    rw [List.foldl_cons]
    cases hsid : p.livekitParticipantSid with
    | none =>
      rw [ih w]
      simp only [markSweep, hsid]
    | some sid =>
      rw [ih _]
      simp only [markSweep, hsid]

theorem reconcileFold_eq_markSweep (ps : List Participant) (now : Nat) :
    ∀ (w : World) (n : Nat),
      (ps.foldl
        (fun (acc : World × Nat) p =>
          match p.livekitParticipantSid with
          | some sid =>
            let r := markParticipantAsLeftBySid acc.1.db sid now
            ({ acc.1 with db := r.2 }, acc.2 + (if r.1 then 1 else 0))
          | none => acc)
        (w, n)) =
      ({ w with db := (markSweep w.db ps now).1 }, n + (markSweep w.db ps now).2) := by
  induction ps with
  | nil =>
    intro w n
    simp [markSweep]
  | cons p ps ih =>
    intro w n
    rw [List.foldl_cons]
    cases hsid : p.livekitParticipantSid with
    | none =>
      rw [ih w n]
      simp only [markSweep, hsid]
    | some sid =>
      rw [ih _ _]
      simp only [markSweep, hsid]
      rw [Prod.mk.injEq]
      exact ⟨rfl, by omega⟩

theorem markSweep_closed :
    ∀ (ps : List Participant) (db : DurableDB) (now : Nat),
      (∀ p ∈ ps, p ∈ db.participants ∧ p.status = ParticipantStatus.JOINED) →
      ((ps.map fun p => p.id).Nodup) →
      ((db.participants.map fun p => p.id).Nodup) →
      SidsUnique db.participants →
      markSweep db ps now =
        ({ db with
            participants :=
              db.participants.map fun r =>
                if ps.any (fun p => p.id == r.id && p.livekitParticipantSid.isSome) then
                  markLeft r now
                else r },
          ps.countP fun p => p.livekitParticipantSid.isSome) := by
  intro ps
  induction ps with
  | nil =>
    intro db now _ _ _ _
    have hmap :
        (db.participants.map fun r =>
          if ([] : List Participant).any
              (fun p => p.id == r.id && p.livekitParticipantSid.isSome) then
            markLeft r now
          else r) = db.participants := by
      rw [List.map_congr_left (fun a _ => by simp : ∀ a ∈ db.participants,
        (if ([] : List Participant).any
            (fun p => p.id == a.id && p.livekitParticipantSid.isSome) then
          markLeft a now
        else a) = id a)]
      exact List.map_id _
    show (db, 0) = _
    rw [hmap]
    rfl
  | cons p ps ih =>
    intro db now hps hnd hP hS
    have hpmem := (hps p (List.mem_cons_self p ps)).1
    have hpj := (hps p (List.mem_cons_self p ps)).2
    have hndtail : (ps.map fun q => q.id).Nodup := by
      rw [List.map_cons] at hnd
      exact (List.nodup_cons.mp hnd).2
    have hpnotin : p.id ∉ ps.map (fun q => q.id) := by
      rw [List.map_cons] at hnd
      exact (List.nodup_cons.mp hnd).1
    cases hsid : p.livekitParticipantSid with
    | none =>
      simp only [markSweep, hsid]
      rw [ih db now (fun q hq => hps q (List.mem_cons_of_mem _ hq)) hndtail hP hS]
      have hmapeq :
          (db.participants.map fun r =>
            if ps.any (fun q => q.id == r.id && q.livekitParticipantSid.isSome) then
              markLeft r now
            else r) =
          (db.participants.map fun r =>
            if (p :: ps).any (fun q => q.id == r.id && q.livekitParticipantSid.isSome) then
              markLeft r now
            else r) :=
        List.map_congr_left (fun r _ => by simp [hsid])
      rw [hmapeq, List.countP_cons_of_neg _ _
        (by show ¬ p.livekitParticipantSid.isSome = true; rw [hsid]; simp)]
    | some sid =>
      have hmark := mark_found_joined db sid now p hpmem hsid hpj hS
      have hr1 : (markParticipantAsLeftBySid db sid now).1 = true := by rw [hmark]
      have hr2 : (markParticipantAsLeftBySid db sid now).2 =
          { db with
            participants :=
              db.participants.map fun r => if r.id == p.id then markLeft r now else r } := by
        rw [hmark]
      simp only [markSweep, hsid, hr1, hr2, if_true]
      set f1 : Participant → Participant :=
        fun r => if r.id == p.id then markLeft r now else r with hf1
      have hf1id : ∀ r, (f1 r).id = r.id := by
        intro r
        rw [hf1]
        by_cases h : r.id == p.id
        · simp [h, markLeft]
        · simp [h]
      have hf1sid : ∀ r, (f1 r).livekitParticipantSid = r.livekitParticipantSid := by
        intro r
        rw [hf1]
        by_cases h : r.id == p.id
        · simp [h, markLeft]
        · simp [h]
      have hps' : ∀ q ∈ ps,
          q ∈ (db.participants.map f1) ∧ q.status = ParticipantStatus.JOINED := by
        intro q hq
        have hqmem := (hps q (List.mem_cons_of_mem _ hq)).1
        have hqid : ¬ q.id = p.id := by
          intro hid
          exact hpnotin (hid ▸ List.mem_map_of_mem (fun x => x.id) hq)
        have : f1 q = q := by
          rw [hf1]
          simp [hqid]
        exact ⟨this ▸ List.mem_map_of_mem f1 hqmem,
          (hps q (List.mem_cons_of_mem _ hq)).2⟩
    -- continued below
      have hP' : ((db.participants.map f1).map fun q => q.id).Nodup := by
        rw [List.map_map]
        have hmm : (List.map ((fun q => q.id) ∘ f1) db.participants) =
            List.map (fun q => q.id) db.participants :=
          List.map_congr_left (fun r _ => hf1id r)
        rw [hmm]
        exact hP
      have hS' : SidsUnique (db.participants.map f1) :=
        hS.map_preserve f1 hf1sid (fun a _ b _ hab => congrArg f1 hab)
      have hdbshape : ({ db with participants := db.participants.map f1} : DurableDB).participants = db.participants.map f1 := rfl
      rw [ih _ now (by rw [hdbshape]; exact hps') (hndtail) (by rw [hdbshape]; exact hP')
        (by rw [hdbshape]; exact hS')]
      rw [Prod.mk.injEq]
      constructor
      · show ({ db with participants := (db.participants.map f1).map _ } : DurableDB) = _
        have hcomp : ((db.participants.map f1).map fun r =>
            if ps.any (fun q => q.id == r.id && q.livekitParticipantSid.isSome) then
              markLeft r now
            else r) =
            db.participants.map fun r =>
              if (p :: ps).any (fun q => q.id == r.id && q.livekitParticipantSid.isSome) then
                markLeft r now
              else r := by
          rw [List.map_map]
          apply List.map_congr_left
          intro r _
          show (if ps.any (fun q => q.id == (f1 r).id && q.livekitParticipantSid.isSome) then
              markLeft (f1 r) now else (f1 r)) = _
          rw [hf1id r]
          by_cases hrid : r.id = p.id
          · have hf1r : f1 r = markLeft r now := by
              rw [hf1]
              simp [hrid]
            have hanyc : (p :: ps).any
                (fun q => q.id == r.id && q.livekitParticipantSid.isSome) = true := by
              rw [List.any_eq_true]
              exact ⟨p, List.mem_cons_self p ps, by simp [hrid, hsid]⟩
            rw [hf1r, hanyc, if_pos rfl]
            by_cases h2 : ps.any (fun q => q.id == r.id && q.livekitParticipantSid.isSome)
            · rw [if_pos h2]
              rfl
            · rw [if_neg h2]
          · have hf1r : f1 r = r := by
              rw [hf1]
              simp [hrid]
            rw [hf1r]
            have hanyeq : (p :: ps).any
                (fun q => q.id == r.id && q.livekitParticipantSid.isSome) =
                ps.any (fun q => q.id == r.id && q.livekitParticipantSid.isSome) := by
              rw [List.any_cons]
              have : (p.id == r.id && p.livekitParticipantSid.isSome) = false := by
                have hne : ¬ (p.id = r.id) := fun h => hrid h.symm
                simp [hne]
              rw [this]
              simp
            rw [hanyeq]
        rw [hcomp]
      · show 1 + List.countP (fun q => q.livekitParticipantSid.isSome) ps =
          List.countP (fun q => q.livekitParticipantSid.isSome) (p :: ps)
        rw [List.countP_cons_of_pos _ _
          (by show p.livekitParticipantSid.isSome = true; rw [hsid]; rfl)]
        omega

theorem markSweep_session (db : DurableDB) (lsId : String) (now : Nat)
    (hP : (db.participants.map fun p => p.id).Nodup)
    (hS : SidsUnique db.participants) :
    markSweep db (listJoinedParticipants db lsId) now =
      ({ db with participants := db.participants.map (sessionFlip lsId now) },
        db.participants.countP fun p =>
          decide (p.livestreamId = lsId ∧ p.status = ParticipantStatus.JOINED ∧
            p.livekitParticipantSid.isSome = true)) := by
  have hps : ∀ p ∈ listJoinedParticipants db lsId,
      p ∈ db.participants ∧ p.status = ParticipantStatus.JOINED := by
    intro p hp
    rw [listJoinedParticipants, List.mem_filter] at hp
    refine ⟨hp.1, ?_⟩
    have h2 := hp.2
    simp only [Bool.and_eq_true, beq_iff_eq] at h2
    exact h2.2
  have hnd : ((listJoinedParticipants db lsId).map fun p => p.id).Nodup :=
    ((List.filter_sublist _).map _).nodup hP
  rw [markSweep_closed _ db now hps hnd hP hS]
  rw [Prod.mk.injEq]
  constructor
  · have hmapeq : (db.participants.map fun r =>
        if (listJoinedParticipants db lsId).any
            (fun p => p.id == r.id && p.livekitParticipantSid.isSome) then
          markLeft r now
        else r) = db.participants.map (sessionFlip lsId now) := by
      apply List.map_congr_left
      intro r hr
      by_cases hc : r.livestreamId = lsId ∧ r.status = ParticipantStatus.JOINED ∧
          r.livekitParticipantSid.isSome = true
      · have hrparts : r ∈ listJoinedParticipants db lsId := by
          rw [listJoinedParticipants, List.mem_filter]
          exact ⟨hr, by simp [hc.1, hc.2.1]⟩
        have hany : (listJoinedParticipants db lsId).any
            (fun p => p.id == r.id && p.livekitParticipantSid.isSome) = true := by
          rw [List.any_eq_true]
          exact ⟨r, hrparts, by simp [hc.2.2]⟩
        rw [hany, if_pos rfl, sessionFlip, if_pos hc]
      · have hany : (listJoinedParticipants db lsId).any
            (fun p => p.id == r.id && p.livekitParticipantSid.isSome) = false := by
          rw [List.any_eq_false]
          intro q hq hqtrue
          simp only [Bool.and_eq_true, beq_iff_eq] at hqtrue
          have hqmem := (hps q hq).1
          have hqr : q = r := List.inj_on_of_nodup_map hP hqmem hr hqtrue.1
          apply hc
          rw [listJoinedParticipants, List.mem_filter] at hq
          have h2 := hq.2
          simp only [Bool.and_eq_true, beq_iff_eq] at h2
          exact ⟨hqr ▸ h2.1, hqr ▸ h2.2, hqr ▸ hqtrue.2⟩
        rw [hany]
        simp only [Bool.false_eq_true, if_false]
        rw [sessionFlip, if_neg hc]
    rw [hmapeq]
  · rw [listJoinedParticipants, List.countP_filter]
    apply List.countP_congr
    intro a _
    simp only [Bool.and_eq_true, beq_iff_eq, decide_eq_true_eq]
    constructor
    · intro h
      exact ⟨h.2.1, h.2.2, h.1⟩
    · intro h
      exact ⟨h.2.2, h.1, h.2.1⟩

theorem handleRoomEnded_none (w : World) (id : String) (h : getState w id = none) :
    handleRoomEnded w id = w := by
  unfold handleRoomEnded
  rw [h]

theorem handleRoomEnded_some (w : World) (id : String) (st : StreamState)
    (h : getState w id = some st) :
    handleRoomEnded w id =
      { w with
        states := alSet w.states id { st with status := StreamStatus.ENDED }
        events := w.events ++ [(id, StateEventType.room_ended)]
        sse := w.sse.filter fun e => !(e.1 == id) } := by
  unfold handleRoomEnded
  rw [h]
  rfl

theorem handleRoomFinished_char (w : World) (r : RoomInfo) (ls : Livestream) (now : Nat)
    (hfind : getLivestreamByRoomName w.db r.name = some ls)
    (hP : (w.db.participants.map fun p => p.id).Nodup)
    (hS : SidsUnique w.db.participants) :
    handleRoomFinished w r now =
      handleRoomEnded
        { w with
          db := { w.db with participants := w.db.participants.map (sessionFlip ls.id now) } }
        ls.id := by
  unfold handleRoomFinished
  rw [hfind]
  simp only []
  rw [roomFinishedFold_eq_markSweep, markSweep_session w.db ls.id now hP hS]

/-! ## C2: the `room_finished` path -/

/-- Counterexample to claim C2 as stated: after a `room_finished` event for an
existing `LIVE` session, the durable Session status is still `LIVE` (this path
never sets it to ended), and a joined participant without a correlation token
is left `JOINED` rather than flipped. -/
theorem room_finished_counterexample :
    (handleWebhookEvent sampleWorld sampleRoomFinishedEvent 5).db.livestreams.map
        (fun ls => ls.status) = [LivestreamStatus.LIVE] ∧
    LivestreamStatus.LIVE ≠ LivestreamStatus.ENDED ∧
    (handleWebhookEvent sampleWorld sampleRoomFinishedEvent 5).db.participants.map
        (fun p => p.status) = [ParticipantStatus.LEFT, ParticipantStatus.JOINED] := by
  decide

/-- Claim C2 as amended: for a `room_finished` notification whose room name
matches an existing Session, the orchestrator flips exactly the
currently-joined participants of that session that carry a correlation token
(token-less ones are skipped with a warning), leaves the durable livestream
rows — in particular the Session status — unchanged on this path, and then,
when ephemeral state exists for the session, marks it ended, broadcasts
`room_ended`, and tears down every subscriber connection of the session; when
no ephemeral state exists, the fan-out is skipped entirely. -/
theorem room_finished_behaviour (w : World) (ev : WebhookEvent) (r : RoomInfo)
    (ls : Livestream) (now : Nat)
    (hev : ev.event = "room_finished") (hroom : ev.room = some r)
    (hfind : getLivestreamByRoomName w.db r.name = some ls)
    (hP : (w.db.participants.map fun p => p.id).Nodup)
    (hS : SidsUnique w.db.participants) :
    (handleWebhookEvent w ev now).db.livestreams = w.db.livestreams ∧
    (handleWebhookEvent w ev now).db.participants =
      w.db.participants.map (sessionFlip ls.id now) ∧
    (∀ st, getState w ls.id = some st →
      getState (handleWebhookEvent w ev now) ls.id =
        some { st with status := StreamStatus.ENDED } ∧
      (handleWebhookEvent w ev now).events =
        w.events ++ [(ls.id, StateEventType.room_ended)] ∧
      alGet (handleWebhookEvent w ev now).sse ls.id = none) ∧
    (getState w ls.id = none →
      (handleWebhookEvent w ev now).states = w.states ∧
      (handleWebhookEvent w ev now).events = w.events ∧
      (handleWebhookEvent w ev now).sse = w.sse) := by
  have hdisp : handleWebhookEvent w ev now = handleRoomFinished w r now := by
    unfold handleWebhookEvent
    rw [if_neg (by rw [hev]; decide), if_neg (by rw [hev]; decide),
      if_neg (by rw [hev]; decide), if_pos (by rw [hev]; decide), hroom]
  rw [hdisp, handleRoomFinished_char w r ls now hfind hP hS]
  set w2 : World :=
    { w with
      db := { w.db with participants := w.db.participants.map (sessionFlip ls.id now) } }
    with hw2
  have hw2states : w2.states = w.states := rfl
  have hw2getState : getState w2 ls.id = getState w ls.id := rfl
  refine ⟨?_, ?_, ?_, ?_⟩
  · rw [handleRoomEnded_db]
  · rw [handleRoomEnded_db]
  · intro st hst
    have hst2 : getState w2 ls.id = some st := hw2getState.trans hst
    rw [handleRoomEnded_some w2 ls.id st hst2]
    refine ⟨?_, rfl, ?_⟩
    · show alGet (alSet w2.states ls.id { st with status := StreamStatus.ENDED }) ls.id =
        some { st with status := StreamStatus.ENDED }
      exact alGet_alSet_self _ _ _
    · apply alGet_eq_none_of_forall
      intro e he hk
      have := List.mem_filter.mp he
      rw [hk] at this
      simp at this
  · intro hst
    have hst2 : getState w2 ls.id = none := hw2getState.trans hst
    rw [handleRoomEnded_none w2 ls.id hst2]
    exact ⟨rfl, rfl, rfl⟩

/-- Witness for C2 (amended) on `sampleWorld`: the SID-carrying participant is
flipped via the token-scoped operation, the SID-less one is kept, and the
session's subscriber connections are gone afterwards. -/
theorem room_finished_behaviour_witness :
    (handleWebhookEvent sampleWorld sampleRoomFinishedEvent 5).db.participants =
      sampleWorld.db.participants.map (sessionFlip "ls1" 5) ∧
    alGet (handleWebhookEvent sampleWorld sampleRoomFinishedEvent 5).sse "ls1" = none := by
  have h := room_finished_behaviour sampleWorld sampleRoomFinishedEvent
    { sid := "RM1", name := "room-a" } sampleLivestream 5 (by decide) (by decide)
    (by decide) (by decide) (by decide)
  exact ⟨h.2.1,
    (h.2.2.1 (initialStreamState "ls1" { userId := "u1", displayName := "host" } 0)
      (by decide)).2.2⟩

/-! ## C3: one reconciliation run -/

theorem sessionFlip_id (lsId : String) (now : Nat) (p : Participant) :
    (sessionFlip lsId now p).id = p.id := by
  unfold sessionFlip
  split <;> rfl

theorem sessionFlip_sid (lsId : String) (now : Nat) (p : Participant) :
    (sessionFlip lsId now p).livekitParticipantSid = p.livekitParticipantSid := by
  unfold sessionFlip
  split <;> rfl

theorem sessionFlip_livestreamId (lsId : String) (now : Nat) (p : Participant) :
    (sessionFlip lsId now p).livestreamId = p.livestreamId := by
  unfold sessionFlip
  split <;> rfl

theorem reconcileSession_char (w : World) (ls : Livestream) (now : Nat)
    (hP : (w.db.participants.map fun p => p.id).Nodup)
    (hS : SidsUnique w.db.participants) :
    reconcileSession w ls now =
      (handleRoomEnded
        { w with
          db :=
            { livestreams :=
                w.db.livestreams.map fun x =>
                  if x.id == ls.id then
                    { x with status := LivestreamStatus.ENDED, endedAt := some now }
                  else x
              participants := w.db.participants.map (sessionFlip ls.id now)
              webhookEvents := w.db.webhookEvents } }
        ls.id,
      w.db.participants.countP fun p =>
        decide (p.livestreamId = ls.id ∧ p.status = ParticipantStatus.JOINED ∧
          p.livekitParticipantSid.isSome = true)) := by
  simp only [reconcileSession]
  rw [reconcileFold_eq_markSweep, markSweep_session w.db ls.id now hP hS]
  rw [Prod.mk.injEq]
  refine ⟨?_, by omega⟩
  rfl

theorem reconcileSession_effects (w : World) (ls : Livestream) (now : Nat)
    (hP : (w.db.participants.map fun p => p.id).Nodup)
    (hS : SidsUnique w.db.participants) :
    (reconcileSession w ls now).1.db.livestreams =
      (w.db.livestreams.map fun x =>
        if x.id == ls.id then
          { x with status := LivestreamStatus.ENDED, endedAt := some now }
        else x) ∧
    (reconcileSession w ls now).1.db.participants =
      w.db.participants.map (sessionFlip ls.id now) ∧
    (reconcileSession w ls now).1.db.webhookEvents = w.db.webhookEvents ∧
    (reconcileSession w ls now).2 =
      w.db.participants.countP (fun p =>
        decide (p.livestreamId = ls.id ∧ p.status = ParticipantStatus.JOINED ∧
          p.livekitParticipantSid.isSome = true)) ∧
    (∀ k, ¬ k = ls.id →
      alGet (reconcileSession w ls now).1.states k = alGet w.states k ∧
      alGet (reconcileSession w ls now).1.sse k = alGet w.sse k) ∧
    (∀ x ∈ w.events, x ∈ (reconcileSession w ls now).1.events) ∧
    (∀ st, alGet w.states ls.id = some st →
      alGet (reconcileSession w ls now).1.states ls.id =
        some { st with status := StreamStatus.ENDED } ∧
      alGet (reconcileSession w ls now).1.sse ls.id = none ∧
      (ls.id, StateEventType.room_ended) ∈ (reconcileSession w ls now).1.events) ∧
    (alGet w.states ls.id = none →
      alGet (reconcileSession w ls now).1.states ls.id = none) := by
  have hchar := reconcileSession_char w ls now hP hS
  set w2 : World :=
    { w with
      db :=
        { livestreams :=
            w.db.livestreams.map fun x =>
              if x.id == ls.id then
                { x with status := LivestreamStatus.ENDED, endedAt := some now }
              else x
          participants := w.db.participants.map (sessionFlip ls.id now)
          webhookEvents := w.db.webhookEvents } }
    with hw2
  have hget2 : ∀ k, alGet w2.states k = alGet w.states k := fun _ => rfl
  have hsse2 : ∀ k, alGet w2.sse k = alGet w.sse k := fun _ => rfl
  refine ⟨?_, ?_, ?_, ?_, ?_, ?_, ?_, ?_⟩
  · rw [hchar, handleRoomEnded_db]
  · rw [hchar, handleRoomEnded_db]
  · rw [hchar, handleRoomEnded_db]
  · rw [hchar]
  · intro k hk
    rw [hchar]
    cases hst : getState w2 ls.id with
    | none =>
      rw [handleRoomEnded_none w2 ls.id hst]
      exact ⟨hget2 k, hsse2 k⟩
    | some st =>
      rw [handleRoomEnded_some w2 ls.id st hst]
      constructor
      · show alGet (alSet w2.states ls.id { st with status := StreamStatus.ENDED }) k =
          alGet w.states k
        rw [alGet_alSet_ne _ _ _ _ hk]
      · show alGet (w2.sse.filter fun e => !(e.1 == ls.id)) k = alGet w.sse k
        rw [alGet_filter_ne _ _ _ hk]
  · intro x hx
    rw [hchar]
    cases hst : getState w2 ls.id with
    | none =>
      rw [handleRoomEnded_none w2 ls.id hst]
      exact hx
    | some st =>
      rw [handleRoomEnded_some w2 ls.id st hst]
      exact List.mem_append_left _ hx
  · intro st hst
    rw [hchar]
    have hst2 : getState w2 ls.id = some st := (hget2 ls.id).trans hst
    rw [handleRoomEnded_some w2 ls.id st hst2]
    refine ⟨?_, ?_, ?_⟩
    · show alGet (alSet w2.states ls.id { st with status := StreamStatus.ENDED }) ls.id = _
      exact alGet_alSet_self _ _ _
    · show alGet (w2.sse.filter fun e => !(e.1 == ls.id)) ls.id = none
      apply alGet_eq_none_of_forall
      intro e he hk
      have := List.mem_filter.mp he
      rw [hk] at this
      simp at this
    · exact List.mem_append_right _ (List.mem_singleton.mpr rfl)
  · intro hst
    rw [hchar]
    have hst2 : getState w2 ls.id = none := (hget2 ls.id).trans hst
    rw [handleRoomEnded_none w2 ls.id hst2]
    exact (hget2 ls.id).trans hst

theorem countP_or_disjoint {α : Type} (l : List α) (p q : α → Bool)
    (h : ∀ a ∈ l, ¬(p a = true ∧ q a = true)) :
    l.countP (fun a => p a || q a) = l.countP p + l.countP q := by
  induction l with
  | nil => rfl
  | cons a t iht =>
    rw [List.countP_cons, List.countP_cons, List.countP_cons,
      iht (fun x hx => h x (List.mem_cons_of_mem a hx))]
    by_cases hpa : p a = true
    · have hqa : ¬ q a = true := fun hq => h a (List.mem_cons_self a t) ⟨hpa, hq⟩
      simp only [hpa, hqa, Bool.true_or, if_true, Bool.false_eq_true, if_false]
      omega
    · by_cases hqa : q a = true
      · have hpa' : p a = false := by
          rw [Bool.not_eq_true] at hpa
          exact hpa
        simp only [hpa', hqa, Bool.false_or, if_true, Bool.false_eq_true, if_false]
        omega
      · have hpa' : p a = false := by
          rw [Bool.not_eq_true] at hpa
          exact hpa
        have hqa' : q a = false := by
          rw [Bool.not_eq_true] at hqa
          exact hqa
        simp only [hpa', hqa', Bool.or_false, Bool.false_eq_true, if_false]
        omega

theorem doneIds_nil (fails : String → Bool) : doneIds [] fails = [] := rfl

theorem doneIds_cons_fail (ls : Livestream) (rest : List Livestream)
    (fails : String → Bool) (hf : fails ls.id = true) :
    doneIds (ls :: rest) fails = doneIds rest fails := by
  simp [doneIds, List.filter_cons, hf]

theorem doneIds_cons_ok (ls : Livestream) (rest : List Livestream)
    (fails : String → Bool) (hf : fails ls.id = false) :
    doneIds (ls :: rest) fails = ls.id :: doneIds rest fails := by
  simp [doneIds, List.filter_cons, hf]

theorem recon_fold_master (now : Nat) (fails : String → Bool) :
    ∀ (rest : List Livestream) (w : World) (n e : Nat),
      ((w.db.participants.map fun p => p.id).Nodup) →
      SidsUnique w.db.participants →
      ((rest.map fun ls => ls.id).Nodup) →
      ((reconLoop fails now rest (w, n, e)).1.db.livestreams =
          w.db.livestreams.map (endFor (doneIds rest fails) now) ∧
        (reconLoop fails now rest (w, n, e)).1.db.participants =
          w.db.participants.map (flipFor (doneIds rest fails) now) ∧
        (reconLoop fails now rest (w, n, e)).1.db.webhookEvents = w.db.webhookEvents ∧
        (reconLoop fails now rest (w, n, e)).2.1 =
          n + w.db.participants.countP (fun p =>
            decide (p.livestreamId ∈ doneIds rest fails ∧
              p.status = ParticipantStatus.JOINED ∧
              p.livekitParticipantSid.isSome = true)) ∧
        (reconLoop fails now rest (w, n, e)).2.2 =
          e + rest.countP (fun ls => fails ls.id) ∧
        (∀ k, k ∉ doneIds rest fails →
          alGet (reconLoop fails now rest (w, n, e)).1.states k = alGet w.states k ∧
          alGet (reconLoop fails now rest (w, n, e)).1.sse k = alGet w.sse k) ∧
        (∀ x ∈ w.events, x ∈ (reconLoop fails now rest (w, n, e)).1.events) ∧
        (∀ k ∈ doneIds rest fails,
          (∀ st, alGet w.states k = some st →
            alGet (reconLoop fails now rest (w, n, e)).1.states k =
              some { st with status := StreamStatus.ENDED } ∧
            alGet (reconLoop fails now rest (w, n, e)).1.sse k = none ∧
            (k, StateEventType.room_ended) ∈ (reconLoop fails now rest (w, n, e)).1.events) ∧
          (alGet w.states k = none →
            alGet (reconLoop fails now rest (w, n, e)).1.states k = none))) := by
  intro rest
  induction rest with
  | nil =>
    intro w n e _ _ _
    refine ⟨?_, ?_, rfl, ?_, ?_, fun k _ => ⟨rfl, rfl⟩, fun x hx => hx, ?_⟩
    · have h1 : w.db.livestreams.map (endFor (doneIds [] fails) now) =
          w.db.livestreams.map id :=
        List.map_congr_left (fun x _ => by simp [endFor, doneIds])
      rw [h1, List.map_id]
      rfl
    · have h1 : w.db.participants.map (flipFor (doneIds [] fails) now) =
          w.db.participants.map id :=
        List.map_congr_left (fun x _ => by simp [flipFor, doneIds])
      rw [h1, List.map_id]
      rfl
    · have h1 : w.db.participants.countP (fun p =>
          decide (p.livestreamId ∈ doneIds [] fails ∧
            p.status = ParticipantStatus.JOINED ∧
            p.livekitParticipantSid.isSome = true)) = 0 :=
        List.countP_eq_zero.mpr (fun a _ => by simp [doneIds])
      rw [h1]
      rfl
    · rfl
    · intro k hk
      simp [doneIds] at hk
  | cons ls rest ih =>
    intro w n e hP hS hnd
    have hndtail : (rest.map fun l2 => l2.id).Nodup := by
      rw [List.map_cons] at hnd
      exact (List.nodup_cons.mp hnd).2
    have hlsnotin : ls.id ∉ rest.map fun l2 => l2.id := by
      rw [List.map_cons] at hnd
      exact (List.nodup_cons.mp hnd).1
    have hlsnotinDone : ls.id ∉ doneIds rest fails := by
      intro hmem
      rcases List.mem_map.mp hmem with ⟨l2, hl2, hid⟩
      exact hlsnotin (hid ▸ List.mem_map_of_mem _ (List.mem_of_mem_filter hl2))
    by_cases hfb : fails ls.id = true
    · -- the session's reconciliation fails: counted, nothing else changes
      have hloop : reconLoop fails now (ls :: rest) (w, n, e) =
          reconLoop fails now rest (w, n, e + 1) := by
        unfold reconLoop
        rw [List.foldl_cons]
        simp only [hfb, if_true]
      have hdone := doneIds_cons_fail ls rest fails hfb
      obtain ⟨i1, i2, i3, i4, i5, i6, i7, i8⟩ := ih w n (e + 1) hP hS hndtail
      rw [hloop, hdone]
      refine ⟨i1, i2, i3, i4, ?_, i6, i7, i8⟩
      rw [i5, List.countP_cons_of_pos _ _ (by exact hfb)]
      omega
    · -- the session is reconciled
      have hf : fails ls.id = false := by
        rw [Bool.not_eq_true] at hfb
        exact hfb
      have hloop : reconLoop fails now (ls :: rest) (w, n, e) =
          reconLoop fails now rest
            ((reconcileSession w ls now).1, n + (reconcileSession w ls now).2, e) := by
        unfold reconLoop
        rw [List.foldl_cons]
        simp only [hf, Bool.false_eq_true, if_false]
      obtain ⟨e1, e2, e3, e4, e5, e6, e7, e8⟩ := reconcileSession_effects w ls now hP hS
      have hP1 : (((reconcileSession w ls now).1.db.participants.map fun p => p.id).Nodup) := by
        rw [e2, List.map_map]
        have hcongr : (w.db.participants.map ((fun p => p.id) ∘ sessionFlip ls.id now)) =
            w.db.participants.map fun p => p.id :=
          List.map_congr_left (fun p _ => sessionFlip_id ls.id now p)
        rw [hcongr]
        exact hP
      have hS1 : SidsUnique (reconcileSession w ls now).1.db.participants := by
        rw [e2]
        exact hS.map_preserve _ (sessionFlip_sid ls.id now) (fun a _ b _ hab => congrArg _ hab)
      obtain ⟨i1, i2, i3, i4, i5, i6, i7, i8⟩ :=
        ih (reconcileSession w ls now).1 (n + (reconcileSession w ls now).2) e hP1 hS1 hndtail
      have hdone := doneIds_cons_ok ls rest fails hf
      rw [hloop, hdone]
      refine ⟨?_, ?_, ?_, ?_, ?_, ?_, ?_, ?_⟩
      · -- livestream rows
        rw [i1, e1, List.map_map]
        apply List.map_congr_left
        intro x _
        show endFor (doneIds rest fails) now
            (if x.id == ls.id then
              { x with status := LivestreamStatus.ENDED, endedAt := some now }
            else x) = endFor (ls.id :: doneIds rest fails) now x
        by_cases hx : x.id = ls.id <;> by_cases hm : x.id ∈ doneIds rest fails <;>
          simp [endFor, hx, hm]
      · -- participant rows
        rw [i2, e2, List.map_map]
        apply List.map_congr_left
        intro p _
        show flipFor (doneIds rest fails) now (sessionFlip ls.id now p) =
          flipFor (ls.id :: doneIds rest fails) now p
        by_cases hid : p.livestreamId = ls.id
        · have hm : p.livestreamId ∉ doneIds rest fails := fun hmm =>
            hlsnotinDone (hid ▸ hmm)
          by_cases hj : p.status = ParticipantStatus.JOINED
          · by_cases hsome : p.livekitParticipantSid.isSome = true
            · simp [sessionFlip, flipFor, markLeft, hid, hj, hsome, hm]
            · simp [sessionFlip, flipFor, hid, hj, hsome, hm]
          · simp [sessionFlip, flipFor, hid, hj, hm]
        · by_cases hm : p.livestreamId ∈ doneIds rest fails
          · simp [sessionFlip, flipFor, hid, hm]
          · simp [sessionFlip, flipFor, hid, hm]
      · exact i3.trans e3
      · -- participantsUpdated
        rw [i4, e4]
        have hw1count : (reconcileSession w ls now).1.db.participants.countP (fun p =>
            decide (p.livestreamId ∈ doneIds rest fails ∧
              p.status = ParticipantStatus.JOINED ∧
              p.livekitParticipantSid.isSome = true)) =
            w.db.participants.countP (fun p =>
              decide (p.livestreamId ∈ doneIds rest fails ∧
                p.status = ParticipantStatus.JOINED ∧
                p.livekitParticipantSid.isSome = true)) := by
          rw [e2, List.countP_map]
          apply List.countP_congr
          intro p _
          show decide ((sessionFlip ls.id now p).livestreamId ∈ doneIds rest fails ∧ _ ∧ _) =
              true ↔ _
          by_cases hc : p.livestreamId = ls.id ∧ p.status = ParticipantStatus.JOINED ∧
              p.livekitParticipantSid.isSome = true
          · rw [sessionFlip, if_pos hc]
            simp only [decide_eq_true_eq, markLeft_livestreamId, markLeft_sid]
            constructor
            · intro h
              exact absurd (hc.1 ▸ h.1) hlsnotinDone
            · intro h
              exact absurd (hc.1 ▸ h.1) hlsnotinDone
          · rw [sessionFlip, if_neg hc]
        rw [hw1count]
        have hsum : w.db.participants.countP (fun p =>
            decide (p.livestreamId ∈ ls.id :: doneIds rest fails ∧
              p.status = ParticipantStatus.JOINED ∧
              p.livekitParticipantSid.isSome = true)) =
            w.db.participants.countP (fun p =>
              decide (p.livestreamId = ls.id ∧ p.status = ParticipantStatus.JOINED ∧
                p.livekitParticipantSid.isSome = true)) +
            w.db.participants.countP (fun p =>
              decide (p.livestreamId ∈ doneIds rest fails ∧
                p.status = ParticipantStatus.JOINED ∧
                p.livekitParticipantSid.isSome = true)) := by
          rw [← countP_or_disjoint _ _ _ (fun a _ => by
            intro hcon
            simp only [decide_eq_true_eq] at hcon
            exact hlsnotinDone (hcon.1.1 ▸ hcon.2.1))]
          apply List.countP_congr
          intro a _
          simp only [Bool.or_eq_true, decide_eq_true_eq, List.mem_cons]
          constructor
          · intro h
            rcases h.1 with h1 | h1
            · exact Or.inl ⟨h1, h.2⟩
            · exact Or.inr ⟨h1, h.2⟩
          · intro h
            rcases h with ⟨h1, h2⟩ | ⟨h1, h2⟩
            · exact ⟨Or.inl h1, h2⟩
            · exact ⟨Or.inr h1, h2⟩
        rw [hsum]
        omega
      · -- errors
        rw [i5, List.countP_cons_of_neg _ _ (by
          show ¬ fails ls.id = true
          rw [hf]
          simp)]
      · -- untouched keys
        intro k hk
        rw [List.mem_cons] at hk
        push_neg at hk
        obtain ⟨hk1, hk2⟩ := hk
        obtain ⟨ha, hb⟩ := i6 k hk2
        obtain ⟨hc, hd⟩ := e5 k hk1
        exact ⟨ha.trans hc, hb.trans hd⟩
      · -- event log montone
        intro x hx
        exact i7 x (e6 x hx)
      · -- processed keys
        intro k hk
        rcases List.mem_cons.mp hk with hkeq | hkmem
        · subst hkeq
          constructor
          · intro st hst
            obtain ⟨ha, hb, hc⟩ := e7 st hst
            obtain ⟨hd, he⟩ := i6 ls.id hlsnotinDone
            exact ⟨hd.trans ha, he.trans hb, i7 _ hc⟩
          · intro hst
            obtain ⟨hd, _⟩ := i6 ls.id hlsnotinDone
            exact hd.trans (e8 hst)
        · have hkne : ¬ k = ls.id := by
            intro hkeq
            exact hlsnotinDone (hkeq ▸ hkmem)
          obtain ⟨hc, hd⟩ := e5 k hkne
          obtain ⟨ia, ib⟩ := i8 k hkmem
          constructor
          · intro st hst
            exact ia st (hc.trans hst)
          · intro hst
            exact ib (hc.trans hst)

theorem runReconciliation_eq (w : World) (liveKitRoomNames : List String)
    (fails : String → Bool) (now : Nat) :
    runReconciliation w liveKitRoomNames fails now =
      ((reconLoop fails now
          ((w.db.livestreams.filter fun ls => ls.status == LivestreamStatus.LIVE).filter
            fun ls => !(liveKitRoomNames.contains ls.roomName))
          (w, 0, 0)).1,
        { totalLiveLivestreams :=
            (w.db.livestreams.filter fun ls => ls.status == LivestreamStatus.LIVE).length
          staleLivestreams :=
            ((w.db.livestreams.filter fun ls => ls.status == LivestreamStatus.LIVE).filter
              fun ls => !(liveKitRoomNames.contains ls.roomName)).length
          participantsUpdated :=
            (reconLoop fails now
              ((w.db.livestreams.filter fun ls => ls.status == LivestreamStatus.LIVE).filter
                fun ls => !(liveKitRoomNames.contains ls.roomName))
              (w, 0, 0)).2.1
          errors :=
            (reconLoop fails now
              ((w.db.livestreams.filter fun ls => ls.status == LivestreamStatus.LIVE).filter
                fun ls => !(liveKitRoomNames.contains ls.roomName))
              (w, 0, 0)).2.2 }) := rfl

/-- Counterexample to claim C3 as stated: reconciling `sampleWorld` against an
empty live-room list ends the stale session, but its SID-less joined
participant stays `JOINED` — not every joined participant of a stale session
is flipped to left. -/
theorem reconciliation_counterexample :
    sampleWorld.db.participants.map (fun p => p.status) =
      [ParticipantStatus.JOINED, ParticipantStatus.JOINED] ∧
    ((runReconciliation sampleWorld [] (fun _ => false) 7).1.db.participants.map
      fun p => p.status) = [ParticipantStatus.LEFT, ParticipantStatus.JOINED] ∧
    ((runReconciliation sampleWorld [] (fun _ => false) 7).1.db.livestreams.map
      fun ls => ls.status) = [LivestreamStatus.ENDED] := by
  decide

/-- Claim C3 as amended: one run of `runReconciliation` ends exactly the LIVE
sessions whose room name is absent from the live room list (and whose
per-session reconciliation does not fail): their SID-carrying joined
participants are flipped to left via the token-scoped operation — joined
participants without a correlation token are skipped with a warning and
remain joined — the session row gets status ENDED with an end timestamp, and
when ephemeral state exists the end-of-session fan-out runs (state marked
ended, `room_ended` broadcast, subscriber connections torn down); sessions
whose room name appears in the live list are untouched, durably and
ephemerally; a per-session failure only increments the error counter without
aborting the rest; the run returns the summary (sessions scanned, stale
found, participants updated, errors). -/
theorem reconciliation_sweep (w : World) (liveKitRoomNames : List String)
    (fails : String → Bool) (now : Nat) (stale : List Livestream)
    (hstale : stale =
      (w.db.livestreams.filter fun ls => ls.status == LivestreamStatus.LIVE).filter
        fun ls => !(liveKitRoomNames.contains ls.roomName))
    (hP : (w.db.participants.map fun p => p.id).Nodup)
    (hL : (w.db.livestreams.map fun ls => ls.id).Nodup)
    (hS : SidsUnique w.db.participants) :
    (runReconciliation w liveKitRoomNames fails now).1.db.livestreams =
      w.db.livestreams.map (staleEnd liveKitRoomNames fails now) ∧
    (runReconciliation w liveKitRoomNames fails now).1.db.participants =
      w.db.participants.map (staleFlip stale fails now) ∧
    (runReconciliation w liveKitRoomNames fails now).1.db.webhookEvents =
      w.db.webhookEvents ∧
    (runReconciliation w liveKitRoomNames fails now).2.totalLiveLivestreams =
      (w.db.livestreams.filter fun ls => ls.status == LivestreamStatus.LIVE).length ∧
    (runReconciliation w liveKitRoomNames fails now).2.staleLivestreams = stale.length ∧
    (runReconciliation w liveKitRoomNames fails now).2.participantsUpdated =
      w.db.participants.countP (fun p =>
        decide ((∃ ls ∈ stale, ls.id = p.livestreamId ∧ fails ls.id = false) ∧
          p.status = ParticipantStatus.JOINED ∧ p.livekitParticipantSid.isSome = true)) ∧
    (runReconciliation w liveKitRoomNames fails now).2.errors =
      stale.countP (fun ls => fails ls.id) ∧
    (∀ ls ∈ stale, fails ls.id = false →
      ∀ st, alGet w.states ls.id = some st →
        alGet (runReconciliation w liveKitRoomNames fails now).1.states ls.id =
          some { st with status := StreamStatus.ENDED } ∧
        alGet (runReconciliation w liveKitRoomNames fails now).1.sse ls.id = none ∧
        (ls.id, StateEventType.room_ended) ∈
          (runReconciliation w liveKitRoomNames fails now).1.events) ∧
    (∀ ls ∈ w.db.livestreams, liveKitRoomNames.contains ls.roomName = true →
      alGet (runReconciliation w liveKitRoomNames fails now).1.states ls.id =
        alGet w.states ls.id ∧
      alGet (runReconciliation w liveKitRoomNames fails now).1.sse ls.id =
        alGet w.sse ls.id) := by
  subst hstale
  set stale : List Livestream :=
    (w.db.livestreams.filter fun ls => ls.status == LivestreamStatus.LIVE).filter
      fun ls => !(liveKitRoomNames.contains ls.roomName) with hstaleDef
  have hstaleMem : ∀ ls ∈ stale, ls ∈ w.db.livestreams ∧
      ls.status = LivestreamStatus.LIVE ∧
      liveKitRoomNames.contains ls.roomName = false := by
    intro ls hls
    rw [hstaleDef, List.mem_filter, List.mem_filter] at hls
    refine ⟨hls.1.1, ?_, ?_⟩
    · have := hls.1.2
      simpa using this
    · have := hls.2
      simpa using this
  have hndstale : (stale.map fun ls => ls.id).Nodup :=
    (((List.filter_sublist _).trans (List.filter_sublist _)).map _).nodup hL
  obtain ⟨m1, m2, m3, m4, m5, m6, m7, m8⟩ :=
    recon_fold_master now fails stale w 0 0 hP hS hndstale
  have hdoneIff : ∀ pid : String,
      pid ∈ doneIds stale fails ↔
        ∃ ls ∈ stale, ls.id = pid ∧ fails ls.id = false := by
    intro pid
    constructor
    · intro hmem
      rcases List.mem_map.mp hmem with ⟨l2, hl2, hid⟩
      rw [List.mem_filter] at hl2
      refine ⟨l2, hl2.1, hid, ?_⟩
      have := hl2.2
      simpa using this
    · rintro ⟨ls, hls, hid, hf⟩
      have hmem : ls.id ∈ doneIds stale fails :=
        List.mem_map_of_mem _ (List.mem_filter.mpr ⟨hls, by simp [hf]⟩)
      rwa [hid] at hmem
  have hdoneOfStale : ∀ ls ∈ stale, fails ls.id = false → ls.id ∈ doneIds stale fails := by
    intro ls hls hf
    exact List.mem_map_of_mem _ (List.mem_filter.mpr ⟨hls, by simp [hf]⟩)
  rw [runReconciliation_eq]
  refine ⟨?_, ?_, m3, rfl, rfl, ?_, ?_, ?_, ?_⟩
  · -- livestream rows
    rw [show ((reconLoop fails now stale (w, 0, 0)).1,
        (⟨_, _, _, _⟩ : ReconciliationStats)).1 = (reconLoop fails now stale (w, 0, 0)).1
      from rfl, m1]
    apply List.map_congr_left
    intro x hx
    by_cases hm : x.id ∈ doneIds stale fails
    · rcases List.mem_map.mp hm with ⟨l2, hl2, hid⟩
      rw [List.mem_filter] at hl2
      have hl2fails : fails l2.id = false := by
        have := hl2.2
        simpa using this
      have hl2props := hstaleMem l2 hl2.1
      have hxeq : l2 = x := List.inj_on_of_nodup_map hL hl2props.1 hx hid
      have hxLIVE : x.status = LivestreamStatus.LIVE := hxeq ▸ hl2props.2.1
      have hxcont : liveKitRoomNames.contains x.roomName = false := hxeq ▸ hl2props.2.2
      have hxnot : x.roomName ∉ liveKitRoomNames := by simpa using hxcont
      have hxfails : fails x.id = false := hxeq ▸ hl2fails
      simp [endFor, staleEnd, hm, hxLIVE, hxnot, hxfails]
    · have hcond : ¬(x.status = LivestreamStatus.LIVE ∧
          liveKitRoomNames.contains x.roomName = false ∧ fails x.id = false) := by
        intro hc
        apply hm
        apply List.mem_map_of_mem
        rw [List.mem_filter]
        refine ⟨?_, by simp [hc.2.2]⟩
        rw [hstaleDef, List.mem_filter, List.mem_filter]
        exact ⟨⟨hx, by simp [hc.1]⟩, by simpa using hc.2.1⟩
      have hcond2 : ¬(x.status = LivestreamStatus.LIVE ∧
          x.roomName ∉ liveKitRoomNames ∧ fails x.id = false) := by
        intro hc
        exact hcond ⟨hc.1, by simpa using hc.2.1, hc.2.2⟩
      simp [endFor, staleEnd, hm, hcond2]
  · -- participant rows
    rw [show ((reconLoop fails now stale (w, 0, 0)).1,
        (⟨_, _, _, _⟩ : ReconciliationStats)).1 = (reconLoop fails now stale (w, 0, 0)).1
      from rfl, m2]
    apply List.map_congr_left
    intro p _
    have hiff := hdoneIff p.livestreamId
    simp only [flipFor, staleFlip, hiff]
  · -- participantsUpdated
    show (reconLoop fails now stale (w, 0, 0)).2.1 = _
    rw [m4]
    rw [Nat.zero_add]
    apply List.countP_congr
    intro p _
    simp only [decide_eq_true_eq]
    rw [hdoneIff p.livestreamId]
  · -- errors
    show (reconLoop fails now stale (w, 0, 0)).2.2 = _
    rw [m5, Nat.zero_add]
  · -- fan-out for processed stale sessions
    intro ls hls hf st hst
    exact (m8 ls.id (hdoneOfStale ls hls hf)).1 st hst
  · -- live-listed sessions are untouched
    intro ls hls hcont
    apply m6
    intro hmem
    rcases (hdoneIff ls.id).mp hmem with ⟨l2, hl2, hid, _⟩
    have : l2 = ls := List.inj_on_of_nodup_map hL (hstaleMem l2 hl2).1 hls hid
    rw [this] at hl2
    have := (hstaleMem ls hl2).2.2
    rw [hcont] at this
    cases this

/-- Witness for C3 (amended) on `sampleWorld` with an empty live list: the
stale session's row is ended with the run's timestamp and no error is
counted. -/
theorem reconciliation_sweep_witness :
    (runReconciliation sampleWorld [] (fun _ => false) 7).1.db.livestreams =
      sampleWorld.db.livestreams.map (staleEnd [] (fun _ => false) 7) ∧
    (runReconciliation sampleWorld [] (fun _ => false) 7).2.errors = 0 := by
  have h := reconciliation_sweep sampleWorld [] (fun _ => false) 7 _ rfl (by decide)
    (by decide) (by decide)
  refine ⟨h.1, ?_⟩
  rw [h.2.2.2.2.2.2.1]
  decide

end Orchestrator
